import Mathlib

/-!
Shallow embedding of the JWT token-lifecycle service in `jwt/jwt.go`
(package `jwt` of the wotop repository), together with a model of the
behaviour of the `github.com/golang-jwt/jwt` (v3) library functions it
calls and of the repository (durable store) contract.

Strings are modelled as `List Char`.  Token strings are modelled by a
concrete executable codec: a well-formed compact token is three
'.'-separated segments (algorithm, payload, signature/key material),
with string fields escaped so that encoded tokens never contain the
characters ' ', '.', '|'.  Time is an explicit `Int` Unix timestamp
passed to each operation; randomness (`generateRandomString`) is an
explicit stream of strings; repository-call outcomes are an explicit
stream of booleans (`true` = the durable write/read succeeds).
-/

namespace Wotop

set_option maxRecDepth 100000

/-- Go strings are modelled as lists of characters. -/
abbrev Str := List Char

/-- The three signing methods a `token` instance can be constructed with
(`NewHS256JWT`, `NewHS512JWT`, `NewRS256JWT`). -/
inductive Alg
  | HS256
  | HS512
  | RS256
deriving DecidableEq, Repr

/-- Signing-method families of the jwt library: `*jwt.SigningMethodHMAC`
vs `*jwt.SigningMethodRSA`. -/
inductive AlgFamily
  | HMAC
  | RSA
deriving DecidableEq, Repr

/-- The family a signing method belongs to. -/
def Alg.family : Alg → AlgFamily
  | .HS256 => .HMAC
  | .HS512 => .HMAC
  | .RS256 => .RSA

/-- `jwt.StandardClaims` restricted to the fields this code sets and
reads: `Id` (the JTI), `Subject`, `ExpiresAt`. -/
structure StdClaims where
  id : Str
  subject : Str
  expiresAt : Int
deriving DecidableEq, Repr

/-- The access-token claim shape `Claims` of jwt.go. -/
structure Claims where
  iD : Str
  csrf : Str
  role : Str
  tenant : Str
  std : StdClaims
deriving DecidableEq, Repr

/-- The refresh-token claim shape `RefreshTokenClaims` of jwt.go. -/
structure RefreshTokenClaims where
  csrf : Str
  std : StdClaims
deriving DecidableEq, Repr

/-- The JSON payload carried by a signed token: either an access claim
set or a refresh claim set. -/
inductive Payload
  | access (c : Claims)
  | refresh (r : RefreshTokenClaims)
deriving DecidableEq, Repr

/-- The key material a token was signed with: an HMAC shared secret, or
the private half of an RSA keypair (identified by a `Nat` naming the
keypair). -/
inductive SigKey
  | hmacKey (secret : Str)
  | rsaPriv (id : Nat)
deriving DecidableEq, Repr

/-- A structurally well-formed signed token: header algorithm, payload,
and the key material the signature was produced with. -/
structure JWS where
  alg : Alg
  payload : Payload
  key : SigKey
deriving DecidableEq, Repr

/-- The `exp` claim of a payload (same JSON key in both shapes). -/
def Payload.exp : Payload → Int
  | .access c => c.std.expiresAt
  | .refresh r => r.std.expiresAt

/-- Decoding a payload's JSON into the `Claims` shape.  The JSON of a
refresh payload has no "id"/"role"/"tenant" keys, so those fields decode
to the Go zero value; the embedded `StandardClaims` keys ("jti", "sub",
"exp") are shared between both shapes. -/
def Payload.asAccess : Payload → Claims
  | .access c => c
  | .refresh r => ⟨[], r.csrf, [], [], r.std⟩

/-- Decoding a payload's JSON into the `RefreshTokenClaims` shape: the
"csrf" key and the embedded `StandardClaims` keys are shared. -/
def Payload.asRefresh : Payload → RefreshTokenClaims
  | .access c => ⟨c.csrf, c.std⟩
  | .refresh r => r

/-! ## The concrete token codec

String fields are escaped so that '|' (field separator), '.' (segment
separator) and ' ' (the scheme-prefix separator) never occur in an
encoded token. -/

/-- Escape one character. -/
def escChar (c : Char) : List Char :=
  if c = ' ' then ['~', 's']
  else if c = '.' then ['~', 'd']
  else if c = '|' then ['~', 'p']
  else if c = '~' then ['~', 't']
  else [c]

/-- Escape a string. -/
def esc : Str → Str
  | [] => []
  | c :: rest => escChar c ++ esc rest

/-- Decode one escape character. -/
def descChar (c : Char) : Option Char :=
  if c = 's' then some ' '
  else if c = 'd' then some '.'
  else if c = 'p' then some '|'
  else if c = 't' then some '~'
  else none

/-- Unescape a string (partial inverse of `esc`). -/
def unesc : Str → Option Str
  | [] => some []
  | c :: rest =>
    if c = '~' then
      match rest with
      | [] => none
      | d :: rest2 =>
        match descChar d with
        | none => none
        | some e => (unesc rest2).map (e :: ·)
    else (unesc rest).map (c :: ·)

/-- Unary encoding of a natural number. -/
def natEnc (n : Nat) : Str := List.replicate n '1'

/-- Encoding of an integer: sign character followed by the unary
magnitude. -/
def intEnc (i : Int) : Str :=
  if i < 0 then '-' :: natEnc i.natAbs else '+' :: natEnc i.natAbs

/-- Decoding of an integer. -/
def intDec : Str → Option Int
  | '-' :: rest => if rest.all (· = '1') then some (-(rest.length : Int)) else none
  | '+' :: rest => if rest.all (· = '1') then some (rest.length : Int) else none
  | _ => none

/-- Split a string on every occurrence of a separator character,
mirroring Go's `strings.Split(s, sep)` for a one-character separator:
always returns at least one piece, with empty pieces between adjacent
separators. -/
def splitOnC (sep : Char) : Str → List Str
  | [] => [[]]
  | c :: rest =>
    if c = sep then [] :: splitOnC sep rest
    else
      match splitOnC sep rest with
      | [] => [[c]]
      | h :: t => (c :: h) :: t

/-- Header character of the three signing methods. -/
def encAlg : Alg → Char
  | .HS256 => 'A'
  | .HS512 => 'B'
  | .RS256 => 'C'

/-- Decode the header character. -/
def decAlg (c : Char) : Option Alg :=
  if c = 'A' then some .HS256
  else if c = 'B' then some .HS512
  else if c = 'C' then some .RS256
  else none

/-- Encode a payload as '|'-separated escaped fields with a shape tag. -/
def encPayload : Payload → Str
  | .access c =>
    'a' :: '|' :: (esc c.iD ++ '|' :: (esc c.csrf ++ '|' :: (esc c.role ++
      '|' :: (esc c.tenant ++ '|' :: (esc c.std.id ++ '|' ::
      (esc c.std.subject ++ '|' :: intEnc c.std.expiresAt))))))
  | .refresh r =>
    'r' :: '|' :: (esc r.csrf ++ '|' :: (esc r.std.id ++ '|' ::
      (esc r.std.subject ++ '|' :: intEnc r.std.expiresAt)))

/-- Decode a payload. -/
def decPayload (s : Str) : Option Payload :=
  match splitOnC '|' s with
  | [['a'], f1, f2, f3, f4, f5, f6, f7] =>
    match unesc f1, unesc f2, unesc f3, unesc f4, unesc f5, unesc f6,
        intDec f7 with
    | some iD, some csrf, some role, some tenant, some jti, some subj,
        some exp =>
      some (.access ⟨iD, csrf, role, tenant, ⟨jti, subj, exp⟩⟩)
    | _, _, _, _, _, _, _ => none
  | [['r'], f1, f2, f3, f4] =>
    match unesc f1, unesc f2, unesc f3, intDec f4 with
    | some csrf, some jti, some subj, some exp =>
      some (.refresh ⟨csrf, ⟨jti, subj, exp⟩⟩)
    | _, _, _, _ => none
  | _ => none

/-- Encode the key material segment. -/
def encKey : SigKey → Str
  | .hmacKey s => 'h' :: esc s
  | .rsaPriv n => 'R' :: natEnc n

/-- Decode the key material segment. -/
def decKey : Str → Option SigKey
  | 'h' :: rest => (unesc rest).map .hmacKey
  | 'R' :: rest =>
    if rest.all (· = '1') then some (.rsaPriv rest.length) else none
  | _ => none

/-- Encode a signed token as a three-segment compact string
(algorithm header, payload, signature/key material). -/
def encodeTok (j : JWS) : Str :=
  encAlg j.alg :: '.' :: (encPayload j.payload ++ '.' :: encKey j.key)

/-- Decode a compact token string; `none` corresponds to the jwt
library's "malformed token" outcome (for which `ParseWithClaims`
returns a nil token). -/
def decodeTok (s : Str) : Option JWS :=
  match splitOnC '.' s with
  | [[a], p, k] =>
    match decAlg a, decPayload p, decKey k with
    | some alg, some pl, some key => some ⟨alg, pl, key⟩
    | _, _, _ => none
  | _ => none

/-! ## Model of the jwt (v3) library

`ParseWithClaims` first decodes the compact string (malformed → nil
token), then calls the keyfunc (error → `ValidationErrorUnverifiable`,
early return), then validates the claims (expiry →
`ValidationErrorExpired` bit) and verifies the signature
(`ValidationErrorSignatureInvalid` bit); the two bits are OR-ed into one
returned validation error, and `token.Valid` is true iff no error. -/

/-- The bits of a `jwt.ValidationError` this code inspects. -/
structure VError where
  malformed : Bool
  unverifiable : Bool
  expired : Bool
  sigInvalid : Bool
deriving DecidableEq, Repr

/-- The per-instance configuration fixed at construction
(`NewHS256JWT` / `NewHS512JWT` / `NewRS256JWT`): signing method, HMAC
secret, the RSA keypair loaded by `initRS256JWT` (named by a `Nat`),
and the two validity durations. -/
structure Cfg where
  alg : Alg
  secretKey : Str
  rsaId : Nat
  accessTokenValidTime : Int
  refreshTokenValidTime : Int
deriving DecidableEq, Repr

/-- Verification key returned by the keyfunc: raw bytes (for HMAC) or
the public half of an RSA keypair. -/
inductive VKey
  | bytesKey (s : Str)
  | rsaPubKey (id : Nat)
deriving DecidableEq, Repr

/-- The key selected by the instance's configured algorithm
(`verifyKey` for RS256, the secret bytes for HS256/HS512). -/
def vkeyFor (cfg : Cfg) : VKey :=
  match cfg.alg with
  | .RS256 => .rsaPubKey cfg.rsaId
  | _ => .bytesKey cfg.secretKey

/-- The keyfunc `parseToken` of jwt.go: it rejects every token whose
header method is not an HMAC method, and otherwise returns the key
selected by the instance's configured algorithm. -/
def parseTokenKeyfunc (cfg : Cfg) (j : JWS) : Option VKey :=
  if j.alg.family = .HMAC then some (vkeyFor cfg) else none

/-- HMAC signature verification with the provided key: a non-byte key
(an RSA public key) is an invalid key type and always fails; a byte key
succeeds exactly when it equals the secret the token was signed with. -/
def hmacVerify (k : VKey) (j : JWS) : Bool :=
  match k with
  | .bytesKey s => decide (j.key = SigKey.hmacKey s)
  | .rsaPubKey _ => false

/-- `StandardClaims.Valid` expiry check: expired iff `exp` is set and
strictly in the past (`VerifyExpiresAt(now, false)`). -/
def claimsExpired (now : Int) (p : Payload) : Bool :=
  decide (p.exp ≠ 0) && decide (now > p.exp)

/-- Model of `jwt.ParseWithClaims`: returns the decoded token (if the
compact string decoded at all) and the validation error, if any. -/
def parseJWS (cfg : Cfg) (now : Int) (s : Str) : Option JWS × Option VError :=
  match decodeTok s with
  | none => (none, some ⟨true, false, false, false⟩)
  | some j =>
    match parseTokenKeyfunc cfg j with
    | none => (some j, some ⟨false, true, false, false⟩)
    | some k =>
      let expired := claimsExpired now j.payload
      let sigOk := hmacVerify k j
      if expired || !sigOk then (some j, some ⟨false, false, expired, !sigOk⟩)
      else (some j, none)

/-! ## Errors, state, repository -/

/-- The typed errors of the package (wotop_jwt/errors.go) plus modelled
infrastructure outcomes: `storeError` is an injected repository
failure, `randError` a failure of `generateRandomString`, and
`jwtValidationError` a raw `*jwt.ValidationError` propagated verbatim
by code paths that do not reinterpret it. -/
inductive Err
  | unauthorized
  | expiredToken
  | tokenAlreadyRefreshed
  | refreshTokenNotFoundInDatabase
  | readingJWTClaims
  | storeError
  | randError
  | jwtValidationError (ve : VError)
deriving DecidableEq, Repr

/-- Combined state: the durable store's two collections (refresh
records keyed by JTI, blocked records) and the process-local caches
(the package-level `refreshTokens` map and `blockedTokens` slice). -/
structure St where
  storeRefresh : List (Str × Str)
  storeBlocked : List (Str × Str × Int)
  refreshTokens : List (Str × Str)
  blockedTokens : List Str
deriving DecidableEq, Repr

/-- Go map lookup with the zero-value default "". -/
def lookupD (m : List (Str × Str)) (k : Str) : Str :=
  match m.find? (fun p => decide (p.1 = k)) with
  | some p => p.2
  | none => []

/-- Go map assignment (overwrites the key). -/
def insertKV (m : List (Str × Str)) (k v : Str) : List (Str × Str) :=
  (k, v) :: m.filter (fun p => !decide (p.1 = k))

/-- Go map `delete`. -/
def eraseK (m : List (Str × Str)) (k : Str) : List (Str × Str) :=
  m.filter (fun p => !decide (p.1 = k))

/-- Outcomes of successive repository calls: `true` means the durable
operation succeeds, `false` injects an infrastructure failure.  An
exhausted stream means all remaining calls succeed. -/
abbrev Faults := List Bool

/-- Consume the outcome of one repository call. -/
def takeFault (f : Faults) : Bool × Faults := (f.headD true, f.tail)

/-- `Repository.StoreRefreshToken`: on success the store maps `jti` to
`sub`. -/
def repoStoreRefreshToken (st : St) (f : Faults) (sub jti : Str) :
    Option Err × St × Faults :=
  let (ok, f1) := takeFault f
  if ok then
    (none, { st with storeRefresh := insertKV st.storeRefresh jti sub }, f1)
  else (some .storeError, st, f1)

/-- `Repository.DeleteRefreshToken`. -/
def repoDeleteRefreshToken (st : St) (f : Faults) (jti : Str) :
    Option Err × St × Faults :=
  let (ok, f1) := takeFault f
  if ok then
    (none, { st with storeRefresh := eraseK st.storeRefresh jti }, f1)
  else (some .storeError, st, f1)

/-- `Repository.FindRefreshToken`; a missing key surfaces as
`ErrTokenAlreadyRefreshed`, as in the Redis reference adapter
(redis.Nil is mapped to that error). -/
def repoFindRefreshToken (st : St) (f : Faults) (jti : Str) :
    Except Err Str × St × Faults :=
  let (ok, f1) := takeFault f
  if ok then
    match st.storeRefresh.find? (fun p => decide (p.1 = jti)) with
    | some p => (.ok p.2, st, f1)
    | none => (.error .tokenAlreadyRefreshed, st, f1)
  else (.error .storeError, st, f1)

/-- `Repository.StoreBlockedToken`. -/
def repoStoreBlockedToken (st : St) (f : Faults) (sub tok : Str) (exp : Int) :
    Option Err × St × Faults :=
  let (ok, f1) := takeFault f
  if ok then
    (none, { st with storeBlocked := (sub, tok, exp) :: st.storeBlocked }, f1)
  else (some .storeError, st, f1)

/-! ## Token service operations -/

/-- One draw of `generateRandomString` from the randomness stream. -/
def genRand : List Str → Except Err Str × List Str
  | [] => (.error .randError, [])
  | r :: rest => (.ok r, rest)

/-- The JTI-collision retry loop of `storeRefreshToken`: draw random
strings until one is free in the cache (`refreshTokens[jti] != ""`
retries). -/
def pickJti (cache : List (Str × Str)) : List Str → Except Err Str × List Str
  | [] => (.error .randError, [])
  | j :: rest =>
    if lookupD cache j = [] then (.ok j, rest) else pickJti cache rest

/-- `checkRefreshToken`: JTI present in the in-memory cache. -/
def checkRefreshToken (st : St) (jti : Str) : Bool :=
  decide (lookupD st.refreshTokens jti ≠ [])

/-- `contains` on the blocked-token slice. -/
def containsStr (l : List Str) (e : Str) : Bool :=
  l.any (fun a => decide (a = e))

/-- The signing key `sign` uses for the configured algorithm. -/
def sigKeyFor (cfg : Cfg) : SigKey :=
  match cfg.alg with
  | .RS256 => .rsaPriv cfg.rsaId
  | _ => .hmacKey cfg.secretKey

/-- `sign`: serialize and sign a claim set under the instance's
configured method. -/
def sign (cfg : Cfg) (p : Payload) : Str :=
  encodeTok ⟨cfg.alg, p, sigKeyFor cfg⟩

/-- The service-level `storeRefreshToken`: generate a collision-free
JTI, persist `{JTI, Subject}` to the store, then mirror it into the
cache (only on store success). -/
def storeRefreshTokenSvc (st : St) (f : Faults) (rnd : List Str) (sub : Str) :
    Except Err Str × St × Faults × List Str :=
  match pickJti st.refreshTokens rnd with
  | (.error e, rnd1) => (.error e, st, f, rnd1)
  | (.ok jti, rnd1) =>
    match repoStoreRefreshToken st f sub jti with
    | (some e, st1, f1) => (.error e, st1, f1, rnd1)
    | (none, st1, f1) =>
      (.ok jti,
        { st1 with refreshTokens := insertKV st1.refreshTokens jti sub },
        f1, rnd1)

/-- `verifyRefreshToken`: parse and signature-check a refresh token;
an expiry failure surfaces as `ErrExpiredToken`, anything else as
`ErrUnauthorized`. -/
def verifyRefreshToken (cfg : Cfg) (now : Int) (refreshToken : Str) :
    Except Err RefreshTokenClaims :=
  match parseJWS cfg now refreshToken with
  | (_, some ve) =>
    .error (if ve.expired then .expiredToken else .unauthorized)
  | (some j, none) => .ok j.payload.asRefresh
  | (none, none) => .error .unauthorized

/-- Split on single spaces (`strings.Split(authToken, " ")`). -/
def splitSp (s : Str) : List Str := splitOnC ' ' s

/-- The scheme-prefix strip at the top of `VerifyToken` and
`RenewToken`: if splitting on spaces yields more than one segment, the
second segment replaces the input. -/
def stripScheme (s : Str) : Str :=
  if (splitSp s).length > 1 then (splitSp s).getD 1 [] else s

/-- Result triple of `VerifyToken`. -/
structure VerifyRes where
  raw : Str
  claims : Option Claims
  err : Option Err
deriving DecidableEq, Repr

/-- `VerifyToken`: strip an optional scheme prefix, parse and
signature-check against the access-claims shape, map an expiry error to
`ErrExpiredToken` and any other parse failure to `ErrUnauthorized`, and
reject a valid token whose (stripped) raw string is in the blocked
cache. -/
def VerifyToken (cfg : Cfg) (st : St) (now : Int) (authToken : Str) :
    VerifyRes :=
  let tok := stripScheme authToken
  match parseJWS cfg now tok with
  | (_, some ve) =>
    if ve.expired then ⟨tok, none, some .expiredToken⟩
    else ⟨tok, none, some .unauthorized⟩
  | (some j, none) =>
    if containsStr st.blockedTokens tok then ⟨tok, none, some .unauthorized⟩
    else ⟨tok, some j.payload.asAccess, none⟩
  | (none, none) => ⟨tok, none, some .unauthorized⟩

/-- The service-level `deleteRefreshToken`: verify the refresh token,
look its JTI up in the store, require the stored subject to equal the
claims' subject, delete the record from the store, then from the
cache. -/
def deleteRefreshTokenSvc (cfg : Cfg) (st : St) (f : Faults) (now : Int)
    (refreshToken : Str) : Option Err × St × Faults :=
  match verifyRefreshToken cfg now refreshToken with
  | .error e => (some e, st, f)
  | .ok claims =>
    match repoFindRefreshToken st f claims.std.id with
    | (.error e, st1, f1) => (some e, st1, f1)
    | (.ok sub, st1, f1) =>
      if sub ≠ claims.std.subject then
        (some .refreshTokenNotFoundInDatabase, st1, f1)
      else
        match repoDeleteRefreshToken st1 f1 claims.std.id with
        | (some e, st2, f2) => (some e, st2, f2)
        | (none, st2, f2) =>
          (none,
            { st2 with refreshTokens := eraseK st2.refreshTokens claims.std.id },
            f2)

/-- `DeleteToken`: delete the refresh record (store, then cache), then
verify the presented access token and, if it is valid and not yet
expired, record it in the blocked collection (store, then cache). -/
def DeleteToken (cfg : Cfg) (st : St) (f : Faults) (now : Int)
    (accessToken refreshToken : Str) : Option Err × St × Faults :=
  match verifyRefreshToken cfg now refreshToken with
  | .error e => (some e, st, f)
  | .ok claims =>
    match repoFindRefreshToken st f claims.std.id with
    | (.error e, st1, f1) => (some e, st1, f1)
    | (.ok sub, st1, f1) =>
      if sub ≠ claims.std.subject then
        (some .refreshTokenNotFoundInDatabase, st1, f1)
      else
        match repoDeleteRefreshToken st1 f1 claims.std.id with
        | (some e, st2, f2) => (some e, st2, f2)
        | (none, st2, f2) =>
          let st3 :=
            { st2 with refreshTokens := eraseK st2.refreshTokens claims.std.id }
          let vr := VerifyToken cfg st3 now accessToken
          match vr.err with
          | some e => (some e, st3, f2)
          | none =>
            match vr.claims with
            | none => (none, st3, f2)
            | some ac =>
              if ac.std.expiresAt ≠ 0 ∧ ac.std.expiresAt > now then
                match repoStoreBlockedToken st3 f2 sub accessToken
                    ac.std.expiresAt with
                | (some e, st4, f3) => (some e, st4, f3)
                | (none, st4, f3) =>
                  (none,
                    { st4 with
                      blockedTokens := st4.blockedTokens ++ [accessToken] },
                    f3)
              else (none, st3, f2)

/-- `createAccessToken`: mint and sign an access claim set expiring
`accessTokenValidTime` from now. -/
def createAccessToken (cfg : Cfg) (now : Int)
    (userID role sub tenant csrf : Str) : Str × Int :=
  let exp := now + cfg.accessTokenValidTime
  (sign cfg (.access ⟨userID, csrf, role, tenant, ⟨[], sub, exp⟩⟩), exp)

/-- `createRefreshToken`: create and persist a fresh JTI, then sign a
refresh claim set carrying it, expiring `refreshTokenValidTime` from
now. -/
def createRefreshToken (cfg : Cfg) (st : St) (f : Faults) (rnd : List Str)
    (now : Int) (sub csrf : Str) : Except Err Str × St × Faults × List Str :=
  let exp := now + cfg.refreshTokenValidTime
  match storeRefreshTokenSvc st f rnd sub with
  | (.error e, st1, f1, rnd1) => (.error e, st1, f1, rnd1)
  | (.ok jti, st1, f1, rnd1) =>
    (.ok (sign cfg (.refresh ⟨csrf, ⟨jti, sub, exp⟩⟩)), st1, f1, rnd1)

/-- Result of `GenerateToken` (named return values and final error). -/
structure GenRes where
  accessToken : Str
  refreshToken : Str
  csrfSecret : Str
  expiresAt : Int
  err : Option Err
deriving DecidableEq, Repr

/-- `GenerateToken`, exactly as written in jwt.go: generate the CSRF
secret, call `createRefreshToken` WITHOUT checking its error (the `err`
named return is immediately overwritten by `createAccessToken`'s), then
mint the access token and return. -/
def GenerateToken (cfg : Cfg) (st : St) (f : Faults) (rnd : List Str)
    (now : Int) (userID role sub tenant : Str) :
    GenRes × St × Faults × List Str :=
  match genRand rnd with
  | (.error e, rnd1) => (⟨[], [], [], 0, some e⟩, st, f, rnd1)
  | (.ok csrf, rnd1) =>
    match createRefreshToken cfg st f rnd1 now sub csrf with
    | (refreshRes, st1, f1, rnd2) =>
      let refreshToken := match refreshRes with
        | .ok r => r
        | .error _ => []
      let (accessToken, exp) :=
        createAccessToken cfg now userID role sub tenant csrf
      (⟨accessToken, refreshToken, csrf, exp, none⟩, st1, f1, rnd2)

/-- `updateRefreshTokenCsrf`: re-sign a refresh claim set with a new
CSRF secret, keeping JTI, subject and expiry. -/
def updateRefreshTokenCsrf (cfg : Cfg) (now : Int)
    (oldRefreshTokenString newCsrfString : Str) : Except Err Str :=
  match parseJWS cfg now oldRefreshTokenString with
  | (_, some ve) => .error (.jwtValidationError ve)
  | (none, none) => .error .unauthorized
  | (some j, none) =>
    let oldC := j.payload.asRefresh
    .ok (sign cfg (.refresh ⟨newCsrfString, oldC.std⟩))

/-- Result of `updateAccessToken`. -/
structure UpdRes where
  newAccessToken : Str
  csrfSecret : Str
  expiresAt : Int
  userId : Str
deriving DecidableEq, Repr

/-- `updateAccessToken`: parse the refresh token (propagating its raw
validation error verbatim on failure — in particular an expired refresh
token never reaches the revocation branch below), check its JTI against
the cache (absence → `ErrUnauthorized`), and — since a parse without
error implies a valid token — mint a new access token from the old
access claims with a regenerated CSRF secret.  A `none` result models
the nil-token dereference (Go panic) on a malformed old access
token. -/
def updateAccessToken (cfg : Cfg) (st : St) (f : Faults) (rnd : List Str)
    (now : Int) (refreshTokenString oldAccessToken : Str) :
    Option (Except Err UpdRes × St × Faults × List Str) :=
  match parseJWS cfg now refreshTokenString with
  | (_, some ve) => some (.error (.jwtValidationError ve), st, f, rnd)
  | (none, none) => some (.error .unauthorized, st, f, rnd)
  | (some jr, none) =>
    if checkRefreshToken st (jr.payload.asRefresh).std.id then
      match decodeTok oldAccessToken with
      | none => none
      | some ja =>
        let oldClaims := ja.payload.asAccess
        match genRand rnd with
        | (.error e, rnd1) => some (.error e, st, f, rnd1)
        | (.ok csrf, rnd1) =>
          let (tok, exp) :=
            createAccessToken cfg now oldClaims.iD oldClaims.role
              oldClaims.std.subject oldClaims.tenant csrf
          some (.ok ⟨tok, csrf, exp, oldClaims.iD⟩, st, f, rnd1)
    else some (.error .unauthorized, st, f, rnd)

/-- `updateRefreshTokenExp` (rotation): parse the old refresh token,
delete its record via `deleteRefreshToken`, store a fresh JTI, and sign
a new refresh claim set with the old CSRF secret, the new JTI and a new
expiry. -/
def updateRefreshTokenExp (cfg : Cfg) (st : St) (f : Faults) (rnd : List Str)
    (now : Int) (oldRefreshTokenString : Str) :
    Except Err Str × St × Faults × List Str :=
  match parseJWS cfg now oldRefreshTokenString with
  | (_, some ve) => (.error (.jwtValidationError ve), st, f, rnd)
  | (none, none) => (.error .unauthorized, st, f, rnd)
  | (some j, none) =>
    let oldC := j.payload.asRefresh
    match deleteRefreshTokenSvc cfg st f now oldRefreshTokenString with
    | (some e, st1, f1) => (.error e, st1, f1, rnd)
    | (none, st1, f1) =>
      let exp := now + cfg.refreshTokenValidTime
      match storeRefreshTokenSvc st1 f1 rnd oldC.std.subject with
      | (.error e, st2, f2, rnd2) => (.error e, st2, f2, rnd2)
      | (.ok jti, st2, f2, rnd2) =>
        (.ok (sign cfg (.refresh ⟨oldC.csrf, ⟨jti, oldC.std.subject, exp⟩⟩)),
          st2, f2, rnd2)

/-- Result of `RenewToken` (named return values and final error). -/
structure RenewRes where
  newAuthToken : Str
  newRefreshToken : Str
  newCsrfSecret : Str
  expiresAt : Int
  userId : Str
  err : Option Err
deriving DecidableEq, Repr

/-- `RenewToken`, exactly as written: strip the scheme prefix, reject
an empty CSRF secret, parse the old access token (a nil token — Go
panic — is modelled as `none`), reject a CSRF mismatch, and branch on
the token's validity: a still-valid access token is returned unchanged
with only the refresh expiry extended; an expired one goes through
`updateAccessToken`, `updateRefreshTokenExp` and
`updateRefreshTokenCsrf`; any other parse error is `Unauthorized`. -/
def RenewToken (cfg : Cfg) (st : St) (f : Faults) (rnd : List Str) (now : Int)
    (oldAccessTokenString oldRefreshTokenString oldCsrfSecret : Str) :
    Option (RenewRes × St × Faults × List Str) :=
  let oldA := stripScheme oldAccessTokenString
  if oldCsrfSecret = [] then
    some (⟨[], [], [], 0, [], some .unauthorized⟩, st, f, rnd)
  else
    match parseJWS cfg now oldA with
    | (none, _) => none
    | (some j, perr) =>
      let claims := j.payload.asAccess
      if oldCsrfSecret ≠ claims.csrf then
        some (⟨[], [], [], 0, [], some .unauthorized⟩, st, f, rnd)
      else
        match perr with
        | none =>
          let newCsrf := claims.csrf
          match updateRefreshTokenExp cfg st f rnd now oldRefreshTokenString with
          | (.error e, st1, f1, rnd1) =>
            some (⟨oldA, [], newCsrf, 0, [], some e⟩, st1, f1, rnd1)
          | (.ok newR, st1, f1, rnd1) =>
            some (⟨oldA, newR, newCsrf, 0, [], none⟩, st1, f1, rnd1)
        | some ve =>
          if ve.expired then
            match updateAccessToken cfg st f rnd now oldRefreshTokenString
                oldA with
            | none => none
            | some (.error e, st1, f1, rnd1) =>
              some (⟨[], [], [], 0, [], some e⟩, st1, f1, rnd1)
            | some (.ok u, st1, f1, rnd1) =>
              match updateRefreshTokenExp cfg st1 f1 rnd1 now
                  oldRefreshTokenString with
              | (.error e, st2, f2, rnd2) =>
                some (⟨u.newAccessToken, [], u.csrfSecret, u.expiresAt,
                  u.userId, some e⟩, st2, f2, rnd2)
              | (.ok nr1, st2, f2, rnd2) =>
                match updateRefreshTokenCsrf cfg now nr1 u.csrfSecret with
                | .error e =>
                  some (⟨u.newAccessToken, [], u.csrfSecret, u.expiresAt,
                    u.userId, some e⟩, st2, f2, rnd2)
                | .ok nr2 =>
                  some (⟨u.newAccessToken, nr2, u.csrfSecret, u.expiresAt,
                    u.userId, none⟩, st2, f2, rnd2)
          else some (⟨[], [], [], 0, [], some .unauthorized⟩, st, f, rnd)

/-! ## Concrete instances used by counterexamples and witnesses -/

/-- An HS256 instance with secret "k", 10s access / 100s refresh
lifetimes. -/
def cfgHS : Cfg := ⟨.HS256, ['k'], 0, 10, 100⟩

/-- An RS256 instance (keypair 7). -/
def cfgRS : Cfg := ⟨.RS256, [], 7, 10, 100⟩

/-- Empty store and caches. -/
def stEmpty : St := ⟨[], [], [], []⟩

/-- One live refresh record `{JTI "J", Subject "S"}` in store and
cache. -/
def stJ : St := ⟨[(['J'], ['S'])], [], [(['J'], ['S'])], []⟩

/-- The state after rotating "J" to "J2". -/
def stJ2 : St := ⟨[(['J', '2'], ['S'])], [], [(['J', '2'], ['S'])], []⟩

/-- An access token for user "u"/role "r"/subject "S"/tenant "t" with
CSRF secret "C", expired at time 5 (signed by `cfgHS`). -/
def atokExp : Str :=
  sign cfgHS (.access ⟨['u'], ['C'], ['r'], ['t'], ⟨[], ['S'], 5⟩⟩)

/-- The same access claims but expiring at 50. -/
def atokOK : Str :=
  sign cfgHS (.access ⟨['u'], ['C'], ['r'], ['t'], ⟨[], ['S'], 50⟩⟩)

/-- A refresh token with JTI "J", subject "S", CSRF "C", expired at 5. -/
def rtokExp : Str := sign cfgHS (.refresh ⟨['C'], ⟨['J'], ['S'], 5⟩⟩)

/-- The same refresh claims but expiring at 100. -/
def rtokOK : Str := sign cfgHS (.refresh ⟨['C'], ⟨['J'], ['S'], 100⟩⟩)

/-- The decoded form of `atokExp`: an HMAC-family token. -/
def jC2 : JWS :=
  ⟨.HS256, .access ⟨['u'], ['C'], ['r'], ['t'], ⟨[], ['S'], 5⟩⟩,
    .hmacKey ['k']⟩

/-- The state after `DeleteToken(atokOK, rtokOK)` at time 10 on `stJ`:
the refresh record is gone, and the access token is recorded in the
blocked collections. -/
def stDel : St := ⟨[], [(['S'], atokOK, 50)], [], [atokOK]⟩

/-- The decoded form of `atokOK`. -/
def jC6 : JWS :=
  ⟨.HS256, .access ⟨['u'], ['C'], ['r'], ['t'], ⟨[], ['S'], 50⟩⟩,
    .hmacKey ['k']⟩

/-- The result of the first (rotating) renewal in the C8 scenario. -/
def res1C8 : RenewRes :=
  ⟨sign cfgHS (.access ⟨['u'], ['c', '2'], ['r'], ['t'], ⟨[], ['S'], 20⟩⟩),
   sign cfgHS (.refresh ⟨['c', '2'], ⟨['J', '2'], ['S'], 110⟩⟩),
   ['c', '2'], 20, ['u'], none⟩

/-- The decoded form of `rtokOK`. -/
def jrC8 : JWS := ⟨.HS256, .refresh ⟨['C'], ⟨['J'], ['S'], 100⟩⟩, .hmacKey ['k']⟩

/-- Every refresh-token cache entry has a backing store record with the
same JTI. -/
def RefreshBacked (st : St) : Prop :=
  ∀ p ∈ st.refreshTokens, ∃ q ∈ st.storeRefresh, q.1 = p.1

/-- Every blocked-token cache entry has a backing store record with the
same token string. -/
def BlockedBacked (st : St) : Prop :=
  ∀ t ∈ st.blockedTokens, ∃ b ∈ st.storeBlocked, b.2.1 = t

/-- The cache never holds an entry with no backing store record. -/
def CacheBacked (st : St) : Prop := RefreshBacked st ∧ BlockedBacked st

theorem unesc_cons_of_ne (c : Char) (rest : Str) (h : ¬c = '~') :
    unesc (c :: rest) = (unesc rest).map (c :: ·) := by
  cases rest <;> simp [unesc, h]

theorem unesc_tilde (d : Char) (rest2 : Str) :
    unesc ('~' :: d :: rest2) =
      match descChar d with
      | none => none
      | some e => (unesc rest2).map (e :: ·) := by
  simp [unesc]

theorem unesc_esc (s : Str) : unesc (esc s) = some s := by
  induction s with
  | nil => rfl
  | cons c rest ih =>
    by_cases h1 : c = ' '
    · simp [esc, escChar, h1, unesc_tilde, descChar, ih]
    · by_cases h2 : c = '.'
      · simp [esc, escChar, h1, h2, unesc_tilde, descChar, ih]
      · by_cases h3 : c = '|'
        · simp [esc, escChar, h1, h2, h3, unesc_tilde, descChar, ih]
        · by_cases h4 : c = '~'
          · simp [esc, escChar, h1, h2, h3, h4, unesc_tilde, descChar, ih]
          · simp [esc, escChar, h1, h2, h3, h4, unesc_cons_of_ne, ih]

theorem mem_esc_not_special {c : Char} {s : Str} (h : c ∈ esc s) :
    c ≠ ' ' ∧ c ≠ '.' ∧ c ≠ '|' := by
  induction s with
  | nil => simp [esc] at h
  | cons a rest ih =>
    simp only [esc, List.mem_append] at h
    rcases h with h | h
    · unfold escChar at h
      by_cases h1 : a = ' '
      · simp [h1] at h
        rcases h with h | h <;> simp [h]
      · by_cases h2 : a = '.'
        · simp [h1, h2] at h
          rcases h with h | h <;> simp [h]
        · by_cases h3 : a = '|'
          · simp [h1, h2, h3] at h
            rcases h with h | h <;> simp [h]
          · by_cases h4 : a = '~'
            · simp [h1, h2, h3, h4] at h
              rcases h with h | h <;> simp [h]
            · simp [h1, h2, h3, h4] at h
              subst h
              exact ⟨h1, h2, h3⟩
    · exact ih h

theorem intDec_intEnc (i : Int) : intDec (intEnc i) = some i := by
  unfold intEnc natEnc
  by_cases h : i < 0
  · simp only [h, if_true, intDec]
    rw [if_pos (by simp [List.all_eq_true])]
    simp only [List.length_replicate, Option.some.injEq]
    omega
  · simp only [h, if_false, intDec]
    rw [if_pos (by simp [List.all_eq_true])]
    simp only [List.length_replicate, Option.some.injEq]
    omega

theorem mem_intEnc_not_special {c : Char} {i : Int} (h : c ∈ intEnc i) :
    c ≠ ' ' ∧ c ≠ '.' ∧ c ≠ '|' := by
  unfold intEnc natEnc at h
  by_cases hi : i < 0 <;> simp [hi] at h <;>
    rcases h with h | ⟨-, h⟩ <;> subst h <;> exact ⟨by decide, by decide, by decide⟩

theorem splitOnC_cons_sep (sep : Char) (s : Str) :
    splitOnC sep (sep :: s) = [] :: splitOnC sep s := by
  simp [splitOnC]

theorem splitOnC_cons_ne (sep c : Char) (s : Str) (h : ¬c = sep) :
    splitOnC sep (c :: s) =
      match splitOnC sep s with
      | [] => [[c]]
      | hd :: t => (c :: hd) :: t := by
  cases s <;> simp [splitOnC, h]

theorem splitOnC_ne_nil (sep : Char) (s : Str) : splitOnC sep s ≠ [] := by
  cases s with
  | nil => simp [splitOnC]
  | cons c rest =>
    by_cases h : c = sep
    · subst h; simp [splitOnC_cons_sep]
    · rw [splitOnC_cons_ne sep c rest h]
      cases splitOnC sep rest <;> simp

theorem splitOnC_no_sep {sep : Char} {s : Str} (h : sep ∉ s) :
    splitOnC sep s = [s] := by
  induction s with
  | nil => rfl
  | cons c rest ih =>
    simp only [List.mem_cons, not_or] at h
    rw [splitOnC_cons_ne sep c rest (fun hc => h.1 hc.symm), ih h.2]

theorem splitOnC_append {sep : Char} {a : Str} (b : Str) (h : sep ∉ a) :
    splitOnC sep (a ++ sep :: b) = a :: splitOnC sep b := by
  induction a with
  | nil => simp [splitOnC_cons_sep]
  | cons c rest ih =>
    simp only [List.mem_cons, not_or] at h
    rw [List.cons_append, splitOnC_cons_ne sep c _ (fun hc => h.1 hc.symm),
      ih h.2]

theorem decAlg_encAlg (a : Alg) : decAlg (encAlg a) = some a := by
  cases a <;> rfl

theorem splitOnC_tag (sep t : Char) (h : ¬t = sep) (X : Str) :
    splitOnC sep (t :: sep :: X) = [t] :: splitOnC sep X := by
  rw [splitOnC_cons_ne sep t _ h, splitOnC_cons_sep]

theorem pipe_not_mem_esc (s : Str) : '|' ∉ esc s :=
  fun h => (mem_esc_not_special h).2.2 rfl

theorem pipe_not_mem_intEnc (i : Int) : '|' ∉ intEnc i :=
  fun h => (mem_intEnc_not_special h).2.2 rfl

theorem decPayload_encPayload (p : Payload) :
    decPayload (encPayload p) = some p := by
  cases p with
  | access c =>
    unfold decPayload encPayload
    rw [splitOnC_tag '|' 'a' (by decide)]
    rw [splitOnC_append _ (pipe_not_mem_esc _)]
    rw [splitOnC_append _ (pipe_not_mem_esc _)]
    rw [splitOnC_append _ (pipe_not_mem_esc _)]
    rw [splitOnC_append _ (pipe_not_mem_esc _)]
    rw [splitOnC_append _ (pipe_not_mem_esc _)]
    rw [splitOnC_append _ (pipe_not_mem_esc _)]
    rw [splitOnC_no_sep (pipe_not_mem_intEnc _)]
    simp [unesc_esc, intDec_intEnc]
  | refresh r =>
    unfold decPayload encPayload
    rw [splitOnC_tag '|' 'r' (by decide)]
    rw [splitOnC_append _ (pipe_not_mem_esc _)]
    rw [splitOnC_append _ (pipe_not_mem_esc _)]
    rw [splitOnC_append _ (pipe_not_mem_esc _)]
    rw [splitOnC_no_sep (pipe_not_mem_intEnc _)]
    simp [unesc_esc, intDec_intEnc]

theorem decKey_encKey (k : SigKey) : decKey (encKey k) = some k := by
  cases k with
  | hmacKey s =>
    have h : decKey ('h' :: esc s) = (unesc (esc s)).map SigKey.hmacKey := by
      cases hs : esc s <;> simp [decKey]
    simp [encKey, h, unesc_esc]
  | rsaPriv n =>
    have h : ∀ rest : Str, decKey ('R' :: rest) =
        (if rest.all (· = '1') then some (.rsaPriv rest.length)
         else none) := by
      intro rest; cases rest <;> simp [decKey]
    show decKey ('R' :: natEnc n) = some (SigKey.rsaPriv n)
    rw [h, if_pos (by simp [natEnc, List.all_eq_true, List.mem_replicate])]
    simp [natEnc]

theorem dot_not_mem_encPayload (p : Payload) : '.' ∉ encPayload p := by
  have hEsc : ∀ s : Str, '.' ∉ esc s := fun s h =>
    (mem_esc_not_special h).2.1 rfl
  have hInt : ∀ i : Int, '.' ∉ intEnc i := fun i h =>
    (mem_intEnc_not_special h).2.1 rfl
  cases p <;>
    · intro h
      simp only [encPayload, List.mem_cons, List.mem_append] at h
      simp only [hEsc, hInt, or_false, false_or] at h
      exact absurd h (by decide)

theorem dot_not_mem_encKey (k : SigKey) : '.' ∉ encKey k := by
  cases k with
  | hmacKey s =>
    intro h
    simp only [encKey, List.mem_cons] at h
    rcases h with h | h
    · exact absurd h (by decide)
    · exact (mem_esc_not_special h).2.1 rfl
  | rsaPriv n =>
    intro h
    simp only [encKey, natEnc, List.mem_cons] at h
    rcases h with h | h
    · exact absurd h (by decide)
    · exact absurd (List.eq_of_mem_replicate h) (by decide)

theorem space_not_mem_encodeTok (j : JWS) : ' ' ∉ encodeTok j := by
  have hEsc : ∀ s : Str, ' ' ∉ esc s := fun s h =>
    (mem_esc_not_special h).1 rfl
  have hInt : ∀ i : Int, ' ' ∉ intEnc i := fun i h =>
    (mem_intEnc_not_special h).1 rfl
  have hPay : ' ' ∉ encPayload j.payload := by
    cases j.payload <;>
      · intro h
        simp only [encPayload, List.mem_cons, List.mem_append] at h
        simp only [hEsc, hInt, or_false, false_or] at h
        exact absurd h (by decide)
  have hKey : ' ' ∉ encKey j.key := by
    cases hk : j.key with
    | hmacKey s =>
      intro h
      simp only [encKey, List.mem_cons] at h
      rcases h with h | h
      · exact absurd h (by decide)
      · exact (mem_esc_not_special h).1 rfl
    | rsaPriv n =>
      intro h
      simp only [encKey, natEnc, List.mem_cons] at h
      rcases h with h | h
      · exact absurd h (by decide)
      · exact absurd (List.eq_of_mem_replicate h) (by decide)
  intro h
  simp only [encodeTok, List.mem_cons, List.mem_append] at h
  rcases h with h | h | h | h | h
  · exact absurd h (by cases j.alg <;> simp [encAlg] at h ⊢)
  · exact absurd h (by decide)
  · exact hPay h
  · exact absurd h (by decide)
  · exact hKey h

theorem decodeTok_encodeTok (j : JWS) : decodeTok (encodeTok j) = some j := by
  unfold decodeTok encodeTok
  rw [splitOnC_tag '.' (encAlg j.alg) (by cases j.alg <;> decide)]
  rw [splitOnC_append _ (dot_not_mem_encPayload _)]
  rw [splitOnC_no_sep (dot_not_mem_encKey _)]
  simp [decAlg_encAlg, decPayload_encPayload, decKey_encKey]

/-! ## General lemmas about the parse model -/

theorem parseJWS_fst (cfg : Cfg) (now : Int) (s : Str) :
    (parseJWS cfg now s).1 = decodeTok s := by
  unfold parseJWS
  rcases hd : decodeTok s with _ | j
  · rfl
  · dsimp only
    rcases hk : parseTokenKeyfunc cfg j with _ | k
    · rfl
    · dsimp only
      split <;> rfl

theorem parseJWS_eq_ok_iff (cfg : Cfg) (now : Int) (s : Str) (j : JWS) :
    parseJWS cfg now s = (some j, none) ↔
      decodeTok s = some j ∧ j.alg.family = .HMAC ∧
      claimsExpired now j.payload = false ∧
      hmacVerify (vkeyFor cfg) j = true := by
  unfold parseJWS parseTokenKeyfunc
  rcases hd : decodeTok s with _ | j2
  · simp
  · by_cases hf : j2.alg.family = .HMAC
    · simp only [hf, if_true]
      by_cases he : claimsExpired now j2.payload <;>
        by_cases hs : hmacVerify (vkeyFor cfg) j2 <;>
          simp [he, hs] <;> aesop
    · simp only [hf, if_false]
      constructor
      · intro h
        simp at h
      · rintro ⟨h1, h2, -⟩
        cases h1
        exact absurd h2 hf

theorem stripScheme_of_no_space {s : Str} (h : ' ' ∉ s) :
    stripScheme s = s := by
  simp [stripScheme, splitSp, splitOnC_no_sep h]

theorem stripScheme_encodeTok (j : JWS) :
    stripScheme (encodeTok j) = encodeTok j :=
  stripScheme_of_no_space (space_not_mem_encodeTok j)

theorem stripScheme_one {x t : Str} (hx : ' ' ∉ x) (ht : ' ' ∉ t) :
    stripScheme (x ++ ' ' :: t) = t := by
  unfold stripScheme splitSp
  rw [splitOnC_append _ hx, splitOnC_no_sep ht]
  simp

theorem stripScheme_two {x t : Str} (junk : Str) (hx : ' ' ∉ x)
    (ht : ' ' ∉ t) :
    stripScheme (x ++ ' ' :: (t ++ ' ' :: junk)) = t := by
  unfold stripScheme splitSp
  rw [splitOnC_append _ hx, splitOnC_append _ ht]
  have h1 : (2 : Nat) ≤ 2 + (splitOnC ' ' junk).length := by omega
  simp [List.getD]

theorem containsStr_eq_true_iff (l : List Str) (e : Str) :
    containsStr l e = true ↔ e ∈ l := by
  simp [containsStr, List.any_eq_true]

theorem claimsExpired_false_of_le {now : Int} {p : Payload}
    (h : now ≤ p.exp) : claimsExpired now p = false := by
  unfold claimsExpired
  simp only [Bool.and_eq_false_iff, decide_eq_false_iff_not]
  right
  omega

theorem Payload.asAccess_exp (p : Payload) :
    (Payload.asAccess p).std.expiresAt = p.exp := by
  cases p <;> rfl

/-! ## Claim theorems -/

/-- C1: the claim says a failed durable write of the refresh record
aborts `GenerateToken` and surfaces the store error.  The code does not
check the error returned by `createRefreshToken` (jwt.go line 751): the
`err` named return is immediately overwritten by `createAccessToken`'s
nil error.  At a concrete input whose single repository call fails, the
operation returns a non-empty signed access token, an empty refresh
token and a nil error, with no refresh record persisted (the state is
unchanged). -/
theorem generateToken_swallows_store_error :
    (GenerateToken cfgHS stEmpty [false] [['c'], ['J']] 0 ['u'] ['r'] ['S']
      ['t']).1.err = none ∧
    (GenerateToken cfgHS stEmpty [false] [['c'], ['J']] 0 ['u'] ['r'] ['S']
      ['t']).1.accessToken ≠ [] ∧
    (GenerateToken cfgHS stEmpty [false] [['c'], ['J']] 0 ['u'] ['r'] ['S']
      ['t']).1.refreshToken = [] ∧
    (GenerateToken cfgHS stEmpty [false] [['c'], ['J']] 0 ['u'] ['r'] ['S']
      ['t']).2.1 = stEmpty := by
  decide

/-- C2 counterexample: an HMAC-signed token that is also expired,
presented to an RS256-configured instance (a signing-method family
different from the configured one), fails `VerifyToken` with
`ExpiredToken`, not `Unauthorized`: the jwt v3 parser records the
expiry bit during claims validation before the signature check fails,
and `VerifyToken` tests the expiry bit first. -/
theorem verifyToken_cross_family_expired_counterexample :
    (decodeTok atokExp).map (fun j => j.alg.family) = some .HMAC ∧
    cfgRS.alg.family = .RSA ∧
    (VerifyToken cfgRS stEmpty 10 atokExp).err = some .expiredToken ∧
    (VerifyToken cfgRS stEmpty 10 atokExp).err ≠ some .unauthorized := by
  decide

/-- C2 (amended): a token whose signing-method family differs from the
instance's configured family never yields claims from `VerifyToken`,
and the reported error is `Unauthorized` — except that an HMAC-signed
token presented to an RS256-configured instance surfaces as
`ExpiredToken` when that token is also expired. -/
theorem verifyToken_cross_family_rejected (cfg : Cfg) (st : St) (now : Int)
    (j : JWS) (h : j.alg.family ≠ cfg.alg.family) :
    (VerifyToken cfg st now (encodeTok j)).claims = none ∧
    (VerifyToken cfg st now (encodeTok j)).err =
      some (if j.alg.family = .HMAC ∧ claimsExpired now j.payload = true
        then Err.expiredToken else Err.unauthorized) := by
  have hs := stripScheme_encodeTok j
  have hd := decodeTok_encodeTok j
  unfold VerifyToken
  rw [hs]
  dsimp only
  rcases hfam : j.alg.family with _ | _
  · have hcfg : cfg.alg = .RS256 := by
      cases hca : cfg.alg
      · exact absurd (by rw [hfam, hca]; rfl) h
      · exact absurd (by rw [hfam, hca]; rfl) h
      · rfl
    have hver : hmacVerify (vkeyFor cfg) j = false := by
      unfold vkeyFor
      rw [hcfg]
      rfl
    have hp : parseJWS cfg now (encodeTok j) =
        (some j, some ⟨false, false, claimsExpired now j.payload, true⟩) := by
      unfold parseJWS parseTokenKeyfunc
      rw [hd]
      dsimp only
      rw [hfam]
      simp [hver]
    rw [hp]
    by_cases he : claimsExpired now j.payload <;> simp [he, hfam]
  · have hp : parseJWS cfg now (encodeTok j) =
        (some j, some ⟨false, true, false, false⟩) := by
      unfold parseJWS parseTokenKeyfunc
      rw [hd]
      dsimp only
      rw [hfam]
      simp
    rw [hp]
    simp [hfam]

/-- C2 witness: the amended theorem applied at a concrete cross-family
input (HMAC-signed token, RS256-configured instance). -/
theorem verifyToken_cross_family_rejected_witness :
    (VerifyToken cfgRS stEmpty 10 (encodeTok jC2)).claims = none ∧
    (VerifyToken cfgRS stEmpty 10 (encodeTok jC2)).err =
      some (if jC2.alg.family = .HMAC ∧ claimsExpired 10 jC2.payload = true
        then Err.expiredToken else Err.unauthorized) :=
  verifyToken_cross_family_rejected cfgRS stEmpty 10 jC2 (by decide)

/-- C3: the claim says an expired refresh token (CSRF matching, access
token expired, refresh signature valid, JTI live in the cache) is
revoked via the revocation path and `Unauthorized` is returned.  In the
code that branch of `updateAccessToken` is unreachable: the jwt
library's parse already fails with the expired validation error, which
`updateAccessToken` propagates verbatim (jwt.go lines 954–959), so
`RenewToken` returns the raw validation error — not `Unauthorized` —
and the state is completely unchanged: JTI "J" is still in the store
and the cache, nothing was revoked.  (The in-code revocation call
`t.DeleteToken(ctx, claims.Subject, claims.Id)` also passes a bare
subject and JTI where token strings are expected.) -/
theorem renewToken_expired_refresh_no_revocation :
    RenewToken cfgHS stJ [] [] 10 atokExp rtokExp ['C'] =
      some (⟨[], [], [], 0, [],
        some (.jwtValidationError ⟨false, false, true, false⟩)⟩,
        stJ, [], []) := by
  decide

/-- C5: the claim says `GenerateToken` then `VerifyToken` round-trips
for every Token instance.  For an RS256-configured instance it cannot:
the keyfunc `parseToken` rejects every non-HMAC signing method,
including the instance's own RS256 (jwt.go lines 893–895), so the
freshly issued access token verifies as `Unauthorized` with no claims,
even though issuance reported success. -/
theorem rs256_round_trip_fails :
    (GenerateToken cfgRS stEmpty [] [['c'], ['J']] 0 ['u'] ['r'] ['S']
      ['t']).1.err = none ∧
    (VerifyToken cfgRS
      (GenerateToken cfgRS stEmpty [] [['c'], ['J']] 0 ['u'] ['r'] ['S']
        ['t']).2.1 5
      (GenerateToken cfgRS stEmpty [] [['c'], ['J']] 0 ['u'] ['r'] ['S']
        ['t']).1.accessToken).claims = none ∧
    (VerifyToken cfgRS
      (GenerateToken cfgRS stEmpty [] [['c'], ['J']] 0 ['u'] ['r'] ['S']
        ['t']).2.1 5
      (GenerateToken cfgRS stEmpty [] [['c'], ['J']] 0 ['u'] ['r'] ['S']
        ['t']).1.accessToken).err = some .unauthorized := by
  decide

/-- C7: `RenewToken` with an empty CSRF secret, or a CSRF secret
different from the one embedded in the (decodable) access token's
claims, returns `Unauthorized` with the state, fault stream and
randomness stream untouched — no store or cache mutation — regardless
of the validity or expiry of either token. -/
theorem renewToken_csrf_guard (cfg : Cfg) (st : St) (f : Faults)
    (rnd : List Str) (now : Int) (a r csrf : Str)
    (h : csrf = [] ∨ ∃ j, decodeTok (stripScheme a) = some j ∧
      csrf ≠ (j.payload.asAccess).csrf) :
    RenewToken cfg st f rnd now a r csrf =
      some (⟨[], [], [], 0, [], some .unauthorized⟩, st, f, rnd) := by
  rcases h with h | ⟨j, hj, hne⟩
  · simp [RenewToken, h]
  · by_cases hc : csrf = []
    · simp [RenewToken, hc]
    · unfold RenewToken
      dsimp only
      rw [if_neg hc]
      rcases hp : parseJWS cfg now (stripScheme a) with ⟨o, e⟩
      have hfst := parseJWS_fst cfg now (stripScheme a)
      rw [hp, hj] at hfst
      cases o with
      | none => simp at hfst
      | some j2 =>
        have hj2 : j2 = j := by simpa using hfst
        subst hj2
        dsimp only
        rw [if_pos hne]

/-- C7 witness: the theorem applied with an empty CSRF secret. -/
theorem renewToken_csrf_guard_witness :
    RenewToken cfgHS stJ [] [] 10 atokExp rtokOK [] =
      some (⟨[], [], [], 0, [], some .unauthorized⟩, stJ, [], []) :=
  renewToken_csrf_guard cfgHS stJ [] [] 10 atokExp rtokOK [] (Or.inl rfl)

/-- C10: the scheme-prefix handling of `VerifyToken` and `RenewToken`
splits the presented string on spaces and takes the second segment
whenever at least one space is present: any first word is accepted as a
scheme, everything after the second segment is discarded, and an input
of the form "X t junk" is processed exactly like the bare token t. -/
theorem scheme_prefix_stripping (cfg : Cfg) (st : St) (f : Faults)
    (rnd : List Str) (now : Int) (x t junk r csrf : Str)
    (hx : ' ' ∉ x) (ht : ' ' ∉ t) :
    stripScheme (x ++ ' ' :: t) = t ∧
    stripScheme (x ++ ' ' :: (t ++ ' ' :: junk)) = t ∧
    VerifyToken cfg st now (x ++ ' ' :: (t ++ ' ' :: junk)) =
      VerifyToken cfg st now t ∧
    RenewToken cfg st f rnd now (x ++ ' ' :: (t ++ ' ' :: junk)) r csrf =
      RenewToken cfg st f rnd now t r csrf := by
  refine ⟨stripScheme_one hx ht, stripScheme_two junk hx ht, ?_, ?_⟩
  · unfold VerifyToken
    rw [stripScheme_two junk hx ht, stripScheme_of_no_space ht]
  · unfold RenewToken
    rw [stripScheme_two junk hx ht, stripScheme_of_no_space ht]

/-- C10 witness: the theorem applied at a concrete prefixed input. -/
theorem scheme_prefix_stripping_witness :
    stripScheme (['B'] ++ ' ' :: ['T']) = ['T'] ∧
    stripScheme (['B'] ++ ' ' :: (['T'] ++ ' ' :: ['j', 'u', 'n', 'k'])) =
      ['T'] ∧
    VerifyToken cfgHS stEmpty 0
      (['B'] ++ ' ' :: (['T'] ++ ' ' :: ['j', 'u', 'n', 'k'])) =
      VerifyToken cfgHS stEmpty 0 ['T'] ∧
    RenewToken cfgHS stEmpty [] [] 0
      (['B'] ++ ' ' :: (['T'] ++ ' ' :: ['j', 'u', 'n', 'k'])) [] [] =
      RenewToken cfgHS stEmpty [] [] 0 ['T'] [] [] :=
  scheme_prefix_stripping cfgHS stEmpty [] [] 0 ['B'] ['T']
    ['j', 'u', 'n', 'k'] [] [] (by decide) (by decide)

theorem repoFind_state (st : St) (f : Faults) (jti : Str) :
    (repoFindRefreshToken st f jti).2.1 = st := by
  unfold repoFindRefreshToken takeFault
  dsimp only
  split
  · split <;> rfl
  · rfl

theorem repoDelete_blocked (st : St) (f : Faults) (jti : Str) :
    (repoDeleteRefreshToken st f jti).2.1.blockedTokens = st.blockedTokens ∧
    (repoDeleteRefreshToken st f jti).2.1.storeBlocked = st.storeBlocked := by
  unfold repoDeleteRefreshToken takeFault
  dsimp only
  split <;> exact ⟨rfl, rfl⟩

theorem repoStoreBlocked_err (st : St) (f : Faults) (sub tok : Str) (e : Int)
    (er : Err) (st4 : St) (f3 : Faults)
    (h : repoStoreBlockedToken st f sub tok e = (some er, st4, f3)) :
    st4 = st := by
  unfold repoStoreBlockedToken takeFault at h
  dsimp only at h
  split at h
  · injection h with h1 h2
    exact Option.noConfusion h1
  · injection h with h1 h2
    injection h2 with h2 h3
    exact h2.symm

/-- C4 counterexample: `DeleteToken` with a valid refresh token and an
already-expired access token deletes the refresh record from both the
store and the cache and then returns a non-nil error (`ExpiredToken`
from the internal `VerifyToken` call, jwt.go lines 679-683).  The
worst-case partial state is therefore not limited to an orphaned
durable record with no cache mirror: a store-and-cache mutation
completes and an error is still returned. -/
theorem deleteToken_mutation_then_error_counterexample :
    DeleteToken cfgHS stJ [] 10 atokExp rtokOK =
      (some .expiredToken, stEmpty, []) ∧
    stJ.storeRefresh ≠ [] ∧ stJ.refreshTokens ≠ [] ∧
    stEmpty.storeRefresh = [] ∧ stEmpty.refreshTokens = [] := by
  decide

theorem deleteToken_err_blocked (cfg : Cfg) (st : St)
    (f : Faults) (now : Int) (a r : Str) (e : Err) (st' : St) (f' : Faults)
    (h : DeleteToken cfg st f now a r = (some e, st', f')) :
    st'.blockedTokens = st.blockedTokens ∧
    st'.storeBlocked = st.storeBlocked := by
  unfold DeleteToken at h
  rcases hv : verifyRefreshToken cfg now r with e1 | rc
  · rw [hv] at h
    dsimp only at h
    injection h with h1 h2
    injection h2 with h2 h3
    rw [← h2]
    exact ⟨rfl, rfl⟩
  · rw [hv] at h
    dsimp only at h
    rcases hfind : repoFindRefreshToken st f rc.std.id with ⟨fres, st1, f1⟩
    rw [hfind] at h
    have hst1 : st1 = st := by
      have h0 := repoFind_state st f rc.std.id
      rw [hfind] at h0
      exact h0
    cases fres with
    | error e2 =>
      dsimp only at h
      injection h with h1 h2
      injection h2 with h2 h3
      rw [← h2, hst1]
      exact ⟨rfl, rfl⟩
    | ok sub =>
      dsimp only at h
      by_cases hsub : sub ≠ rc.std.subject
      · rw [if_pos hsub] at h
        injection h with h1 h2
        injection h2 with h2 h3
        rw [← h2, hst1]
        exact ⟨rfl, rfl⟩
      · rw [if_neg hsub] at h
        rcases hdel : repoDeleteRefreshToken st1 f1 rc.std.id with ⟨od, st2, f2⟩
        rw [hdel] at h
        have hblk2 : st2.blockedTokens = st.blockedTokens ∧
            st2.storeBlocked = st.storeBlocked := by
          have h0 := repoDelete_blocked st1 f1 rc.std.id
          rw [hdel, hst1] at h0
          exact h0
        cases od with
        | some e2 =>
          dsimp only at h
          injection h with h1 h2
          injection h2 with h2 h3
          rw [← h2]
          exact hblk2
        | none =>
          dsimp only at h
          generalize hg :
            ({ st2 with
              refreshTokens := eraseK st2.refreshTokens rc.std.id } : St) =
            st3 at h
          have hblk3 : st3.blockedTokens = st.blockedTokens ∧
              st3.storeBlocked = st.storeBlocked := by
            rw [← hg]
            exact hblk2
          rcases hvr : (VerifyToken cfg st3 now a).err with _ | e3
          · rw [hvr] at h
            dsimp only at h
            rcases hvc : (VerifyToken cfg st3 now a).claims with _ | ac
            · rw [hvc] at h
              dsimp only at h
              injection h with h1 h2
              exact Option.noConfusion h1
            · rw [hvc] at h
              dsimp only at h
              by_cases hexp : ac.std.expiresAt ≠ 0 ∧ ac.std.expiresAt > now
              · rw [if_pos hexp] at h
                rcases hsb : repoStoreBlockedToken st3 f2 sub a
                    ac.std.expiresAt with ⟨ob, st4, f3⟩
                rw [hsb] at h
                cases ob with
                | some e2 =>
                  dsimp only at h
                  injection h with h1 h2
                  injection h2 with h2 h3
                  have hst4 : st4 = st3 := repoStoreBlocked_err _ _ _ _ _ _ _ _ hsb
                  rw [← h2, hst4]
                  exact hblk3
                | none =>
                  dsimp only at h
                  injection h with h1 h2
                  exact Option.noConfusion h1
              · rw [if_neg hexp] at h
                injection h with h1 h2
                exact Option.noConfusion h1
          · rw [hvr] at h
            dsimp only at h
            injection h with h1 h2
            injection h2 with h2 h3
            rw [← h2]
            exact hblk3

theorem VerifyToken_ok_inv (cfg : Cfg) (st : St) (now : Int) (a : Str)
    (j : JWS) (hs : stripScheme a = a) (hj : decodeTok a = some j)
    (h : (VerifyToken cfg st now a).err = none) :
    parseJWS cfg now a = (some j, none) ∧
    (VerifyToken cfg st now a).claims = some j.payload.asAccess ∧
    containsStr st.blockedTokens a = false := by
  have hp : parseJWS cfg now a = (some j, none) := by
    rcases hq : parseJWS cfg now a with ⟨o, e⟩
    have hfst := parseJWS_fst cfg now a
    rw [hq, hj] at hfst
    dsimp only at hfst
    subst hfst
    cases e with
    | none => rfl
    | some ve =>
      exfalso
      unfold VerifyToken at h
      rw [hs] at h
      dsimp only at h
      rw [hq] at h
      dsimp only at h
      by_cases hve : ve.expired <;> simp [hve] at h
  refine ⟨hp, ?_⟩
  unfold VerifyToken at h ⊢
  rw [hs] at h ⊢
  dsimp only at h ⊢
  rw [hp] at h ⊢
  dsimp only at h ⊢
  by_cases hb : containsStr st.blockedTokens a
  · simp [hb] at h
  · simp [hb]

theorem deleteToken_ok_inv (cfg : Cfg) (st : St) (f : Faults) (now : Int)
    (a r : Str) (st' : St) (f' : Faults)
    (h : DeleteToken cfg st f now a r = (none, st', f'))
    (j : JWS) (hs : stripScheme a = a) (hj : decodeTok a = some j)
    (hne : j.payload.exp ≠ 0) (hgt : j.payload.exp > now) :
    a ∈ st'.blockedTokens ∧ parseJWS cfg now a = (some j, none) := by
  unfold DeleteToken at h
  rcases hv : verifyRefreshToken cfg now r with e1 | rc
  · rw [hv] at h
    dsimp only at h
    injection h with h1 h2
    exact Option.noConfusion h1
  · rw [hv] at h
    dsimp only at h
    rcases hfind : repoFindRefreshToken st f rc.std.id with ⟨fres, st1, f1⟩
    rw [hfind] at h
    cases fres with
    | error e2 =>
      dsimp only at h
      injection h with h1 h2
      exact Option.noConfusion h1
    | ok sub =>
      dsimp only at h
      by_cases hsub : sub ≠ rc.std.subject
      · rw [if_pos hsub] at h
        injection h with h1 h2
        exact Option.noConfusion h1
      · rw [if_neg hsub] at h
        rcases hdel : repoDeleteRefreshToken st1 f1 rc.std.id with ⟨od, st2, f2⟩
        rw [hdel] at h
        cases od with
        | some e2 =>
          dsimp only at h
          injection h with h1 h2
          exact Option.noConfusion h1
        | none =>
          dsimp only at h
          generalize hg :
            ({ st2 with
              refreshTokens := eraseK st2.refreshTokens rc.std.id } : St) =
            st3 at h
          rcases hvr : (VerifyToken cfg st3 now a).err with _ | e3
          · rw [hvr] at h
            dsimp only at h
            obtain ⟨hp, hclaims, -⟩ :=
              VerifyToken_ok_inv cfg st3 now a j hs hj hvr
            rw [hclaims] at h
            dsimp only at h
            have hcond : (j.payload.asAccess).std.expiresAt ≠ 0 ∧
                (j.payload.asAccess).std.expiresAt > now := by
              rw [Payload.asAccess_exp]
              exact ⟨hne, hgt⟩
            rw [if_pos hcond] at h
            rcases hsb : repoStoreBlockedToken st3 f2 sub a
                (j.payload.asAccess).std.expiresAt with ⟨ob, st4, f3⟩
            rw [hsb] at h
            cases ob with
            | some e2 =>
              dsimp only at h
              injection h with h1 h2
              exact Option.noConfusion h1
            | none =>
              dsimp only at h
              injection h with h1 h2
              injection h2 with h2 h3
              refine ⟨?_, hp⟩
              rw [← h2]
              simp
          · rw [hvr] at h
            dsimp only at h
            injection h with h1 h2
            exact Option.noConfusion h1

/-- C6: after a successful `DeleteToken(access, refresh)` performed
while the (space-free, decodable) access token was strictly unexpired,
`VerifyToken(access)` returns `Unauthorized` in every state whose
blocked cache includes the blocked tokens recorded by the deletion, at
any time at which the token has still not naturally expired: the raw
access-token string was added to the blocked set, and blocked-set
membership overrides the still-valid, unexpired signature. -/
theorem deleteToken_blocks_unexpired_access (cfg : Cfg) (st : St)
    (f : Faults) (now1 : Int) (a r : Str) (st' : St) (f' : Faults) (j : JWS)
    (st2 : St) (now2 : Int)
    (hsp : ' ' ∉ a)
    (hdel : DeleteToken cfg st f now1 a r = (none, st', f'))
    (hj : decodeTok a = some j)
    (hne : j.payload.exp ≠ 0)
    (hgt : j.payload.exp > now1)
    (hsub : st'.blockedTokens ⊆ st2.blockedTokens)
    (hnow2 : now2 ≤ j.payload.exp) :
    (VerifyToken cfg st2 now2 a).err = some .unauthorized := by
  have hs := stripScheme_of_no_space hsp
  obtain ⟨hmem, hp⟩ :=
    deleteToken_ok_inv cfg st f now1 a r st' f' hdel j hs hj hne hgt
  obtain ⟨hd2, hfam, hexp1, hsig⟩ := (parseJWS_eq_ok_iff cfg now1 a j).1 hp
  have hexp2 : claimsExpired now2 j.payload = false :=
    claimsExpired_false_of_le hnow2
  have hp2 : parseJWS cfg now2 a = (some j, none) :=
    (parseJWS_eq_ok_iff cfg now2 a j).2 ⟨hd2, hfam, hexp2, hsig⟩
  have hb : containsStr st2.blockedTokens a = true :=
    (containsStr_eq_true_iff _ _).2 (hsub hmem)
  unfold VerifyToken
  rw [hs]
  dsimp only
  rw [hp2]
  dsimp only
  rw [if_pos hb]

/-- C6 witness: the theorem applied at a concrete revocation: delete at
time 10 (expiry 50), verify at time 20. -/
theorem deleteToken_blocks_unexpired_access_witness :
    (VerifyToken cfgHS stDel 20 atokOK).err = some .unauthorized :=
  deleteToken_blocks_unexpired_access cfgHS stJ [] 10 atokOK rtokOK stDel []
    jC6 stDel 20 (by decide) (by decide) (by decide) (by decide) (by decide)
    (List.Subset.refl _) (by decide)

theorem find_filter_ne (m : List (Str × Str)) (k k2 : Str) (h : k2 ≠ k) :
    (m.filter (fun p => !decide (p.1 = k))).find?
      (fun p => decide (p.1 = k2)) =
      m.find? (fun p => decide (p.1 = k2)) := by
  induction m with
  | nil => rfl
  | cons p rest ih =>
    by_cases hp : p.1 = k
    · have hne : ¬p.1 = k2 := by rw [hp]; exact fun hc => h hc.symm
      simp [List.filter_cons, hp, List.find?_cons, hne, ih,
        decide_eq_false (fun hc : k = k2 => h hc.symm)]
    · have hkeep : (!decide (p.1 = k)) = true := by simp [hp]
      simp only [List.filter_cons, hkeep, if_true]
      by_cases hp2 : p.1 = k2 <;> simp [List.find?_cons, hp2, ih]

theorem lookupD_insert_ne (m : List (Str × Str)) (k v k2 : Str)
    (h : k2 ≠ k) : lookupD (insertKV m k v) k2 = lookupD m k2 := by
  unfold lookupD insertKV
  rw [List.find?_cons_of_neg _
      (by simp only [decide_eq_true_eq]; exact fun hc => h hc.symm),
    find_filter_ne m k k2 h]

theorem lookupD_erase_self (m : List (Str × Str)) (k : Str) :
    lookupD (eraseK m k) k = [] := by
  unfold lookupD eraseK
  have h : (m.filter fun p => !decide (p.1 = k)).find?
      (fun p => decide (p.1 = k)) = none := by
    rw [List.find?_eq_none]
    intro x hx
    simp only [List.mem_filter, Bool.not_eq_true', decide_eq_false_iff_not]
      at hx
    simp [hx.2]
  rw [h]

theorem pickJti_ok_mem {cache : List (Str × Str)} :
    ∀ {rnd : List Str} {j : Str} {rnd1 : List Str},
    pickJti cache rnd = (.ok j, rnd1) → j ∈ rnd ∧ lookupD cache j = [] := by
  intro rnd
  induction rnd with
  | nil =>
    intro j rnd1 h
    simp [pickJti] at h
  | cons r rest ih =>
    intro j rnd1 h
    unfold pickJti at h
    by_cases hl : lookupD cache r = []
    · rw [if_pos hl] at h
      injection h with h1 h2
      injection h1 with h1
      subst h1
      exact ⟨List.mem_cons_self r rest, hl⟩
    · rw [if_neg hl] at h
      obtain ⟨hm, hlk⟩ := ih h
      exact ⟨List.mem_cons_of_mem _ hm, hlk⟩

theorem repoStore_ok (st : St) (f : Faults) (sub jti : Str) (st2 : St)
    (f2 : Faults) (h : repoStoreRefreshToken st f sub jti = (none, st2, f2)) :
    st2 = { st with storeRefresh := insertKV st.storeRefresh jti sub } := by
  unfold repoStoreRefreshToken takeFault at h
  dsimp only at h
  split at h
  · injection h with h1 h2
    injection h2 with h2 h3
    exact h2.symm
  · injection h with h1 h2
    exact Option.noConfusion h1

theorem repoDelete_ok (st : St) (f : Faults) (jti : Str) (st2 : St)
    (f2 : Faults) (h : repoDeleteRefreshToken st f jti = (none, st2, f2)) :
    st2 = { st with storeRefresh := eraseK st.storeRefresh jti } := by
  unfold repoDeleteRefreshToken takeFault at h
  dsimp only at h
  split at h
  · injection h with h1 h2
    injection h2 with h2 h3
    exact h2.symm
  · injection h with h1 h2
    exact Option.noConfusion h1

theorem storeSvc_ok_inv (st : St) (f : Faults) (rnd : List Str) (sub : Str)
    (jti : Str) (st1 : St) (f1 : Faults) (rnd1 : List Str)
    (h : storeRefreshTokenSvc st f rnd sub = (.ok jti, st1, f1, rnd1)) :
    jti ∈ rnd ∧ lookupD st.refreshTokens jti = [] ∧
    st1.refreshTokens = insertKV st.refreshTokens jti sub ∧
    st1.storeRefresh = insertKV st.storeRefresh jti sub ∧
    st1.storeBlocked = st.storeBlocked ∧
    st1.blockedTokens = st.blockedTokens := by
  unfold storeRefreshTokenSvc at h
  rcases hp : pickJti st.refreshTokens rnd with ⟨pres, rnd2⟩
  rw [hp] at h
  cases pres with
  | error e =>
    dsimp only at h
    injection h with h1 h2
    exact Except.noConfusion h1
  | ok j2 =>
    dsimp only at h
    rcases hr : repoStoreRefreshToken st f sub j2 with ⟨or, st2, f2⟩
    rw [hr] at h
    cases or with
    | some e =>
      dsimp only at h
      injection h with h1 h2
      exact Except.noConfusion h1
    | none =>
      dsimp only at h
      injection h with h1 h2
      injection h2 with h2 h3
      injection h1 with h1
      subst h1
      obtain ⟨hmem, hfree⟩ := pickJti_ok_mem hp
      have hst2 := repoStore_ok st f sub j2 st2 f2 hr
      subst hst2
      rw [← h2]
      exact ⟨hmem, hfree, rfl, rfl, rfl, rfl⟩

theorem verifyRefresh_ok_inv (cfg : Cfg) (now : Int) (r : Str)
    (rc : RefreshTokenClaims) (h : verifyRefreshToken cfg now r = .ok rc) :
    ∃ jr, decodeTok r = some jr ∧ parseJWS cfg now r = (some jr, none) ∧
      rc = jr.payload.asRefresh := by
  unfold verifyRefreshToken at h
  rcases hq : parseJWS cfg now r with ⟨o, e⟩
  rw [hq] at h
  cases e with
  | some ve =>
    cases o <;>
      · dsimp only at h
        exact Except.noConfusion h
  | none =>
    cases o with
    | none =>
      dsimp only at h
      exact Except.noConfusion h
    | some jr =>
      dsimp only at h
      injection h with h1
      have hfst := parseJWS_fst cfg now r
      rw [hq] at hfst
      dsimp only at hfst
      exact ⟨jr, hfst.symm, rfl, h1.symm⟩

theorem deleteSvc_ok_inv (cfg : Cfg) (st : St) (f : Faults) (now : Int)
    (r : Str) (st1 : St) (f1 : Faults)
    (h : deleteRefreshTokenSvc cfg st f now r = (none, st1, f1)) :
    ∃ rc, verifyRefreshToken cfg now r = .ok rc ∧
      st1.refreshTokens = eraseK st.refreshTokens rc.std.id ∧
      st1.storeRefresh = eraseK st.storeRefresh rc.std.id ∧
      st1.storeBlocked = st.storeBlocked ∧
      st1.blockedTokens = st.blockedTokens := by
  unfold deleteRefreshTokenSvc at h
  rcases hv : verifyRefreshToken cfg now r with e1 | rc
  · rw [hv] at h
    dsimp only at h
    injection h with h1 h2
    exact Option.noConfusion h1
  · rw [hv] at h
    dsimp only at h
    rcases hfind : repoFindRefreshToken st f rc.std.id with ⟨fres, stf, ff⟩
    rw [hfind] at h
    have hstf : stf = st := by
      have h0 := repoFind_state st f rc.std.id
      rw [hfind] at h0
      exact h0
    cases fres with
    | error e2 =>
      dsimp only at h
      injection h with h1 h2
      exact Option.noConfusion h1
    | ok sub =>
      dsimp only at h
      by_cases hsub : sub ≠ rc.std.subject
      · rw [if_pos hsub] at h
        injection h with h1 h2
        exact Option.noConfusion h1
      · rw [if_neg hsub] at h
        rcases hdel : repoDeleteRefreshToken stf ff rc.std.id with
          ⟨od, st2, f2⟩
        rw [hdel] at h
        cases od with
        | some e2 =>
          dsimp only at h
          injection h with h1 h2
          exact Option.noConfusion h1
        | none =>
          dsimp only at h
          injection h with h1 h2
          injection h2 with h2 h3
          have hst2 := repoDelete_ok stf ff rc.std.id st2 f2 hdel
          subst hst2
          subst hstf
          rw [← h2]
          exact ⟨rc, rfl, rfl, rfl, rfl, rfl⟩

theorem genRand_ok (rnd : List Str) (csrf : Str) (rnd2 : List Str)
    (h : genRand rnd = (.ok csrf, rnd2)) : rnd2 = rnd.tail := by
  cases rnd with
  | nil =>
    injection h with h1 h2
    exact Except.noConfusion h1
  | cons r rest =>
    injection h with h1 h2
    exact h2.symm

theorem updateAccessToken_ok_inv (cfg : Cfg) (st : St) (f : Faults)
    (rnd : List Str) (now : Int) (r a : Str) (u : UpdRes) (stA : St)
    (fA : Faults) (rndA : List Str)
    (h : updateAccessToken cfg st f rnd now r a =
      some (.ok u, stA, fA, rndA)) :
    stA = st ∧ fA = f ∧ rndA = rnd.tail := by
  unfold updateAccessToken at h
  rcases hq : parseJWS cfg now r with ⟨o, e⟩
  rw [hq] at h
  cases e with
  | some ve =>
    cases o <;>
      · dsimp only at h
        injection h with h1
        injection h1 with h1 h2
        exact Except.noConfusion h1
  | none =>
    cases o with
    | none =>
      dsimp only at h
      injection h with h1
      injection h1 with h1 h2
      exact Except.noConfusion h1
    | some jr =>
      dsimp only at h
      by_cases hchk : checkRefreshToken st (jr.payload.asRefresh).std.id
      · rw [if_pos hchk] at h
        rcases hda : decodeTok a with _ | ja
        · rw [hda] at h
          exact Option.noConfusion h
        · rw [hda] at h
          dsimp only at h
          rcases hg : genRand rnd with ⟨gres, rndg⟩
          rw [hg] at h
          cases gres with
          | error e1 =>
            dsimp only at h
            injection h with h1
            injection h1 with h1 h2
            exact Except.noConfusion h1
          | ok csrf =>
            dsimp only at h
            injection h with h1
            injection h1 with h1 h2
            injection h2 with h2 h3
            injection h3 with h3 h4
            exact ⟨h2.symm, h3.symm, h4.symm.trans (genRand_ok rnd csrf rndg hg)⟩
      · rw [if_neg hchk] at h
        injection h with h1
        injection h1 with h1 h2
        exact Except.noConfusion h1

theorem updExp_ok_inv (cfg : Cfg) (st : St) (f : Faults) (rnd : List Str)
    (now : Int) (r nr : Str) (st1 : St) (f1 : Faults) (rnd1 : List Str)
    (h : updateRefreshTokenExp cfg st f rnd now r = (.ok nr, st1, f1, rnd1)) :
    ∃ jr newJti, decodeTok r = some jr ∧ newJti ∈ rnd ∧
      st1.refreshTokens =
        insertKV (eraseK st.refreshTokens (jr.payload.asRefresh).std.id)
          newJti (jr.payload.asRefresh).std.subject ∧
      st1.blockedTokens = st.blockedTokens ∧
      st1.storeBlocked = st.storeBlocked := by
  unfold updateRefreshTokenExp at h
  rcases hq : parseJWS cfg now r with ⟨o, e⟩
  rw [hq] at h
  cases e with
  | some ve =>
    cases o <;>
      · dsimp only at h
        injection h with h1 h2
        exact Except.noConfusion h1
  | none =>
    cases o with
    | none =>
      dsimp only at h
      injection h with h1 h2
      exact Except.noConfusion h1
    | some jr =>
      dsimp only at h
      rcases hd : deleteRefreshTokenSvc cfg st f now r with ⟨dres, stD, fD⟩
      rw [hd] at h
      cases dres with
      | some e1 =>
        dsimp only at h
        injection h with h1 h2
        exact Except.noConfusion h1
      | none =>
        dsimp only at h
        rcases hs : storeRefreshTokenSvc stD fD rnd
            (jr.payload.asRefresh).std.subject with ⟨sres, stS, fS, rndS⟩
        rw [hs] at h
        cases sres with
        | error e1 =>
          dsimp only at h
          injection h with h1 h2
          exact Except.noConfusion h1
        | ok newJti =>
          dsimp only at h
          injection h with h1 h2
          injection h2 with h2 h3
          obtain ⟨rc, hvr, hcache, hstore, hsb, hbt⟩ :=
            deleteSvc_ok_inv cfg st f now r stD fD hd
          obtain ⟨jr2, hdec2, hq2, hrc⟩ :=
            verifyRefresh_ok_inv cfg now r rc hvr
          have hdec : decodeTok r = some jr := by
            have hfst := parseJWS_fst cfg now r
            rw [hq] at hfst
            dsimp only at hfst
            exact hfst.symm
          have hjr2 : jr2 = jr := by
            rw [hdec] at hdec2
            injection hdec2 with hh
            exact hh.symm
          obtain ⟨hmem, hfree, hrt, hsr, hsb2, hbt2⟩ :=
            storeSvc_ok_inv stD fD rnd _ newJti stS fS rndS hs
          refine ⟨jr, newJti, hdec, hmem, ?_, ?_, ?_⟩
          · rw [← h2, hrt, hcache, hrc, hjr2]
          · rw [← h2, hbt2, hbt]
          · rw [← h2, hsb2, hsb]

theorem renew_ok_updExp (cfg : Cfg) (st : St) (f : Faults) (rnd : List Str)
    (now : Int) (a r csrf : Str) (res : RenewRes) (st1 : St) (f1 : Faults)
    (rnd1 : List Str)
    (h : RenewToken cfg st f rnd now a r csrf = some (res, st1, f1, rnd1))
    (herr : res.err = none) :
    ∃ rnd0 nr, (rnd0 = rnd ∨ rnd0 = rnd.tail) ∧
      updateRefreshTokenExp cfg st f rnd0 now r = (.ok nr, st1, f1, rnd1) := by
  unfold RenewToken at h
  dsimp only at h
  by_cases hc : csrf = []
  · rw [if_pos hc] at h
    injection h with h1
    injection h1 with h1 h2
    rw [← h1] at herr
    exact Option.noConfusion herr
  · rw [if_neg hc] at h
    rcases hp : parseJWS cfg now (stripScheme a) with ⟨o, e⟩
    rw [hp] at h
    cases o with
    | none =>
      cases e <;>
        · dsimp only at h
          exact Option.noConfusion h
    | some j =>
      dsimp only at h
      by_cases hcs : csrf ≠ (j.payload.asAccess).csrf
      · rw [if_pos hcs] at h
        injection h with h1
        injection h1 with h1 h2
        rw [← h1] at herr
        exact Option.noConfusion herr
      · rw [if_neg hcs] at h
        cases e with
        | none =>
          dsimp only at h
          rcases hu : updateRefreshTokenExp cfg st f rnd now r with
            ⟨ures, stU, fU, rndU⟩
          rw [hu] at h
          cases ures with
          | error e1 =>
            dsimp only at h
            injection h with h1
            injection h1 with h1 h2
            rw [← h1] at herr
            exact Option.noConfusion herr
          | ok nr =>
            dsimp only at h
            injection h with h1
            injection h1 with h1 h2
            injection h2 with h2 h3
            injection h3 with h3 h4
            exact ⟨rnd, nr, Or.inl rfl, by rw [hu, h2, h3, h4]⟩
        | some ve =>
          dsimp only at h
          by_cases hve : ve.expired
          · rw [if_pos hve] at h
            rcases hua : updateAccessToken cfg st f rnd now r (stripScheme a)
              with _ | ⟨ures, stA, fA, rndA⟩
            · rw [hua] at h
              exact Option.noConfusion h
            · rw [hua] at h
              cases ures with
              | error e1 =>
                dsimp only at h
                injection h with h1
                injection h1 with h1 h2
                rw [← h1] at herr
                exact Option.noConfusion herr
              | ok u =>
                dsimp only at h
                obtain ⟨hstA, hfA, hrndA⟩ := updateAccessToken_ok_inv cfg st f
                  rnd now r (stripScheme a) u stA fA rndA hua
                rw [hstA, hfA, hrndA] at h
                rcases hu : updateRefreshTokenExp cfg st f rnd.tail now r with
                  ⟨ures2, stU, fU, rndU⟩
                rw [hu] at h
                cases ures2 with
                | error e1 =>
                  dsimp only at h
                  injection h with h1
                  injection h1 with h1 h2
                  rw [← h1] at herr
                  exact Option.noConfusion herr
                | ok nr1 =>
                  dsimp only at h
                  rcases hcsrf : updateRefreshTokenCsrf cfg now nr1
                    u.csrfSecret with e1 | nr2
                  · rw [hcsrf] at h
                    dsimp only at h
                    injection h with h1
                    injection h1 with h1 h2
                    rw [← h1] at herr
                    exact Option.noConfusion herr
                  · rw [hcsrf] at h
                    dsimp only at h
                    injection h with h1
                    injection h1 with h1 h2
                    injection h2 with h2 h3
                    injection h3 with h3 h4
                    exact ⟨rnd.tail, nr1, Or.inr rfl, by rw [hu, h2, h3, h4]⟩
          · rw [if_neg hve] at h
            injection h with h1
            injection h1 with h1 h2
            rw [← h1] at herr
            exact Option.noConfusion herr

/-- C8 counterexample: after a successful renewal that rotates JTI "J"
to "J2", presenting the old refresh token together with a still-valid
access token (the short-circuit branch of `RenewToken`) fails — but
with the store-lookup error `ErrTokenAlreadyRefreshed` surfaced by
`updateRefreshTokenExp`/`deleteRefreshToken`, not with `Unauthorized`
as the claim states: on that branch the cache is never consulted. -/
theorem renewToken_replay_counterexample :
    RenewToken cfgHS stJ [] [['c', '2'], ['J', '2']] 10 atokExp rtokOK ['C'] =
      some (res1C8, stJ2, [], []) ∧
    (RenewToken cfgHS stJ2 [] [] 10 atokOK rtokOK ['C']).map
      (fun x => x.1.err) = some (some .tokenAlreadyRefreshed) ∧
    Err.tokenAlreadyRefreshed ≠ Err.unauthorized := by
  decide

/-- C8 (amended): after any successful renewal (`err = none`) whose
randomness stream never returns the old JTI (so the rotation genuinely
replaces it), the old refresh token's JTI is gone from the cache, and a
subsequent `RenewToken` that presents it through the standard renewal
path — an expired access token with matching, non-empty CSRF, the old
refresh token still signature-valid — fails with `Unauthorized`
("refresh token has been revoked") and leaves the state untouched.
(Presented with a still-valid access token instead, the replay fails
with the store's not-found error, not `Unauthorized` — see the
counterexample.) -/
theorem renewToken_rotation_invalidates_old_refresh (cfg : Cfg) (st : St)
    (f : Faults) (rnd : List Str) (now : Int) (a r csrf : Str)
    (res : RenewRes) (st1 : St) (f1 : Faults) (rnd1 : List Str) (jr : JWS)
    (now2 : Int) (a2 csrf2 : Str) (f2 : Faults) (rnd2 : List Str) (ja2 : JWS)
    (ve2 : VError)
    (h1 : RenewToken cfg st f rnd now a r csrf = some (res, st1, f1, rnd1))
    (h2 : res.err = none)
    (hr : decodeTok r = some jr)
    (hfresh : (jr.payload.asRefresh).std.id ∉ rnd)
    (hp2 : parseJWS cfg now2 (stripScheme a2) = (some ja2, some ve2))
    (hve2 : ve2.expired = true)
    (hcs : csrf2 = (ja2.payload.asAccess).csrf)
    (hcne : csrf2 ≠ [])
    (hpr2 : parseJWS cfg now2 r = (some jr, none)) :
    RenewToken cfg st1 f2 rnd2 now2 a2 r csrf2 =
      some (⟨[], [], [], 0, [], some .unauthorized⟩, st1, f2, rnd2) := by
  obtain ⟨rnd0, nr, hrnd0, hupd⟩ :=
    renew_ok_updExp cfg st f rnd now a r csrf res st1 f1 rnd1 h1 h2
  obtain ⟨jr2, newJti, hdec2, hmem, hcache, -, -⟩ :=
    updExp_ok_inv cfg st f rnd0 now r nr st1 f1 rnd1 hupd
  have hjr2 : jr2 = jr := by
    rw [hr] at hdec2
    injection hdec2 with hh
    exact hh.symm
  subst hjr2
  have hnewne : newJti ≠ (jr2.payload.asRefresh).std.id := by
    intro hEq
    apply hfresh
    rw [← hEq]
    rcases hrnd0 with hh | hh <;> rw [hh] at hmem
    · exact hmem
    · exact List.mem_of_mem_tail hmem
  have hlk : lookupD st1.refreshTokens (jr2.payload.asRefresh).std.id = [] := by
    rw [hcache,
      lookupD_insert_ne _ _ _ _ (fun hc => hnewne hc.symm),
      lookupD_erase_self]
  have hchk : checkRefreshToken st1 (jr2.payload.asRefresh).std.id = false := by
    simp [checkRefreshToken, hlk]
  have hupd2 : updateAccessToken cfg st1 f2 rnd2 now2 r (stripScheme a2) =
      some (.error .unauthorized, st1, f2, rnd2) := by
    unfold updateAccessToken
    rw [hpr2]
    dsimp only
    rw [if_neg (by rw [hchk]; exact Bool.false_ne_true)]
  unfold RenewToken
  dsimp only
  rw [if_neg hcne, hp2]
  dsimp only
  rw [if_neg (fun hh => hh hcs), if_pos hve2, hupd2]

/-- C8 witness: the amended theorem applied to the concrete rotation
scenario: rotate "J" to "J2" at time 10, then replay the old refresh
token with the expired access token. -/
theorem renewToken_rotation_invalidates_old_refresh_witness :
    RenewToken cfgHS stJ2 [] [] 10 atokExp rtokOK ['C'] =
      some (⟨[], [], [], 0, [], some .unauthorized⟩, stJ2, [], []) :=
  renewToken_rotation_invalidates_old_refresh cfgHS stJ []
    [['c', '2'], ['J', '2']] 10 atokExp rtokOK ['C'] res1C8 stJ2 [] [] jrC8
    10 atokExp ['C'] [] [] jC2 ⟨false, false, true, false⟩ (by decide)
    (by decide) (by decide) (by decide) (by decide) (by decide) (by decide)
    (by decide) (by decide)

theorem mem_insertKV {m : List (Str × Str)} {k v : Str} {p : Str × Str}
    (h : p ∈ insertKV m k v) : p = (k, v) ∨ (p ∈ m ∧ p.1 ≠ k) := by
  simp only [insertKV, List.mem_cons, List.mem_filter, Bool.not_eq_true',
    decide_eq_false_iff_not] at h
  tauto

theorem mem_eraseK {m : List (Str × Str)} {k : Str} {p : Str × Str}
    (h : p ∈ eraseK m k) : p ∈ m ∧ p.1 ≠ k := by
  simp only [eraseK, List.mem_filter, Bool.not_eq_true',
    decide_eq_false_iff_not] at h
  exact h

theorem mem_insertKV_of_mem {m : List (Str × Str)} {k v : Str}
    {q : Str × Str} (hq : q ∈ m) (hne : q.1 ≠ k) : q ∈ insertKV m k v := by
  simp only [insertKV, List.mem_cons, List.mem_filter, Bool.not_eq_true',
    decide_eq_false_iff_not]
  exact Or.inr ⟨hq, hne⟩

theorem mem_eraseK_of_mem {m : List (Str × Str)} {k : Str} {q : Str × Str}
    (hq : q ∈ m) (hne : q.1 ≠ k) : q ∈ eraseK m k := by
  simp only [eraseK, List.mem_filter, Bool.not_eq_true',
    decide_eq_false_iff_not]
  exact ⟨hq, hne⟩

theorem repoStoreRefresh_err (st : St) (f : Faults) (sub jti : Str) (e : Err)
    (st2 : St) (f2 : Faults)
    (h : repoStoreRefreshToken st f sub jti = (some e, st2, f2)) :
    st2 = st := by
  unfold repoStoreRefreshToken takeFault at h
  dsimp only at h
  split at h
  · injection h with h1 h2
    exact Option.noConfusion h1
  · injection h with h1 h2
    injection h2 with h2 h3
    exact h2.symm

theorem repoDelete_err (st : St) (f : Faults) (jti : Str) (e : Err)
    (st2 : St) (f2 : Faults)
    (h : repoDeleteRefreshToken st f jti = (some e, st2, f2)) : st2 = st := by
  unfold repoDeleteRefreshToken takeFault at h
  dsimp only at h
  split at h
  · injection h with h1 h2
    exact Option.noConfusion h1
  · injection h with h1 h2
    injection h2 with h2 h3
    exact h2.symm

theorem storeSvc_backed (st : St) (f : Faults) (rnd : List Str) (sub : Str)
    (res : Except Err Str) (st1 : St) (f1 : Faults) (rnd1 : List Str)
    (h : storeRefreshTokenSvc st f rnd sub = (res, st1, f1, rnd1))
    (hb : CacheBacked st) : CacheBacked st1 := by
  unfold storeRefreshTokenSvc at h
  rcases hp : pickJti st.refreshTokens rnd with ⟨pres, rnd2⟩
  rw [hp] at h
  cases pres with
  | error e =>
    dsimp only at h
    injection h with h1 h2
    injection h2 with h2 h3
    rw [← h2]
    exact hb
  | ok j2 =>
    dsimp only at h
    rcases hr : repoStoreRefreshToken st f sub j2 with ⟨or, st2, f2⟩
    rw [hr] at h
    cases or with
    | some e =>
      dsimp only at h
      injection h with h1 h2
      injection h2 with h2 h3
      have he := repoStoreRefresh_err st f sub j2 e st2 f2 hr
      rw [← h2, he]
      exact hb
    | none =>
      dsimp only at h
      injection h with h1 h2
      injection h2 with h2 h3
      have hst2 := repoStore_ok st f sub j2 st2 f2 hr
      subst hst2
      rw [← h2]
      constructor
      · intro p hpmem
        rcases mem_insertKV hpmem with hcase | ⟨hcase, hne⟩
        · exact ⟨(j2, sub), List.mem_cons_self _ _, by rw [hcase]⟩
        · obtain ⟨q, hq, hq1⟩ := hb.1 p hcase
          exact ⟨q, mem_insertKV_of_mem hq (by rw [hq1]; exact hne), hq1⟩
      · intro t ht
        exact hb.2 t ht

theorem deleteSvc_backed (cfg : Cfg) (st : St) (f : Faults) (now : Int)
    (r : Str) (res : Option Err) (st1 : St) (f1 : Faults)
    (h : deleteRefreshTokenSvc cfg st f now r = (res, st1, f1))
    (hb : CacheBacked st) : CacheBacked st1 := by
  unfold deleteRefreshTokenSvc at h
  rcases hv : verifyRefreshToken cfg now r with e1 | rc
  · rw [hv] at h
    dsimp only at h
    injection h with h1 h2
    injection h2 with h2 h3
    rw [← h2]
    exact hb
  · rw [hv] at h
    dsimp only at h
    rcases hfind : repoFindRefreshToken st f rc.std.id with ⟨fres, stf, ff⟩
    rw [hfind] at h
    have hstf : stf = st := by
      have h0 := repoFind_state st f rc.std.id
      rw [hfind] at h0
      exact h0
    subst hstf
    cases fres with
    | error e2 =>
      dsimp only at h
      injection h with h1 h2
      injection h2 with h2 h3
      rw [← h2]
      exact hb
    | ok sub =>
      dsimp only at h
      by_cases hsub : sub ≠ rc.std.subject
      · rw [if_pos hsub] at h
        injection h with h1 h2
        injection h2 with h2 h3
        rw [← h2]
        exact hb
      · rw [if_neg hsub] at h
        rcases hdel : repoDeleteRefreshToken stf ff rc.std.id with
          ⟨od, st2, f2⟩
        rw [hdel] at h
        cases od with
        | some e2 =>
          dsimp only at h
          injection h with h1 h2
          injection h2 with h2 h3
          have he := repoDelete_err stf ff rc.std.id e2 st2 f2 hdel
          rw [← h2, he]
          exact hb
        | none =>
          dsimp only at h
          injection h with h1 h2
          injection h2 with h2 h3
          have hst2 := repoDelete_ok stf ff rc.std.id st2 f2 hdel
          subst hst2
          rw [← h2]
          constructor
          · intro p hpmem
            obtain ⟨hpm, hpne⟩ := mem_eraseK hpmem
            obtain ⟨q, hq, hq1⟩ := hb.1 p hpm
            exact ⟨q, mem_eraseK_of_mem hq (by rw [hq1]; exact hpne), hq1⟩
          · intro t ht
            exact hb.2 t ht

theorem deleteToken_backed (cfg : Cfg) (st : St) (f : Faults) (now : Int)
    (a r : Str) (res : Option Err) (st1 : St) (f1 : Faults)
    (h : DeleteToken cfg st f now a r = (res, st1, f1))
    (hb : CacheBacked st) : CacheBacked st1 := by
  unfold DeleteToken at h
  rcases hv : verifyRefreshToken cfg now r with e1 | rc
  · rw [hv] at h
    dsimp only at h
    injection h with h1 h2
    injection h2 with h2 h3
    rw [← h2]
    exact hb
  · rw [hv] at h
    dsimp only at h
    rcases hfind : repoFindRefreshToken st f rc.std.id with ⟨fres, stf, ff⟩
    rw [hfind] at h
    have hstf : stf = st := by
      have h0 := repoFind_state st f rc.std.id
      rw [hfind] at h0
      exact h0
    cases fres with
    | error e2 =>
      dsimp only at h
      injection h with h1 h2
      injection h2 with h2 h3
      rw [← h2, hstf]
      exact hb
    | ok sub =>
      dsimp only at h
      by_cases hsub : sub ≠ rc.std.subject
      · rw [if_pos hsub] at h
        injection h with h1 h2
        injection h2 with h2 h3
        rw [← h2, hstf]
        exact hb
      · rw [if_neg hsub] at h
        rcases hdel : repoDeleteRefreshToken stf ff rc.std.id with
          ⟨od, st2, f2⟩
        rw [hdel] at h
        cases od with
        | some e2 =>
          dsimp only at h
          injection h with h1 h2
          injection h2 with h2 h3
          have he := repoDelete_err stf ff rc.std.id e2 st2 f2 hdel
          rw [← h2, he, hstf]
          exact hb
        | none =>
          dsimp only at h
          have hst2 := repoDelete_ok stf ff rc.std.id st2 f2 hdel
          have hb3 : CacheBacked
              { st2 with refreshTokens := eraseK st2.refreshTokens rc.std.id } := by
            rw [hst2, hstf]
            constructor
            · intro p hpmem
              obtain ⟨hpm, hpne⟩ := mem_eraseK hpmem
              obtain ⟨q, hq, hq1⟩ := hb.1 p hpm
              exact ⟨q, mem_eraseK_of_mem hq (by rw [hq1]; exact hpne), hq1⟩
            · intro t ht
              exact hb.2 t ht
          generalize hg :
            ({ st2 with
              refreshTokens := eraseK st2.refreshTokens rc.std.id } : St) =
            st3 at h hb3
          rcases hvr : (VerifyToken cfg st3 now a).err with _ | e3
          · rw [hvr] at h
            dsimp only at h
            rcases hvc : (VerifyToken cfg st3 now a).claims with _ | ac
            · rw [hvc] at h
              dsimp only at h
              injection h with h1 h2
              injection h2 with h2 h3
              rw [← h2]
              exact hb3
            · rw [hvc] at h
              dsimp only at h
              by_cases hexp : ac.std.expiresAt ≠ 0 ∧ ac.std.expiresAt > now
              · rw [if_pos hexp] at h
                rcases hsb : repoStoreBlockedToken st3 f2 sub a
                    ac.std.expiresAt with ⟨ob, st4, f3⟩
                rw [hsb] at h
                cases ob with
                | some e2 =>
                  dsimp only at h
                  injection h with h1 h2
                  injection h2 with h2 h3
                  have he := repoStoreBlocked_err st3 f2 sub a
                    ac.std.expiresAt e2 st4 f3 hsb
                  rw [← h2, he]
                  exact hb3
                | none =>
                  dsimp only at h
                  injection h with h1 h2
                  injection h2 with h2 h3
                  have hst4 : st4 = { st3 with
                      storeBlocked := (sub, a, ac.std.expiresAt) ::
                        st3.storeBlocked } := by
                    unfold repoStoreBlockedToken takeFault at hsb
                    dsimp only at hsb
                    split at hsb
                    · injection hsb with hb1 hb2
                      injection hb2 with hb2 hb3
                      exact hb2.symm
                    · injection hsb with hb1 hb2
                      exact Option.noConfusion hb1
                  subst hst4
                  rw [← h2]
                  constructor
                  · intro p hpmem
                    exact hb3.1 p hpmem
                  · intro t ht
                    rcases List.mem_append.1 ht with htm | htm
                    · obtain ⟨b, hbm, hb1⟩ := hb3.2 t htm
                      exact ⟨b, List.mem_cons_of_mem _ hbm, hb1⟩
                    · rcases List.mem_singleton.1 htm with rfl
                      exact ⟨(sub, t, ac.std.expiresAt),
                        List.mem_cons_self _ _, rfl⟩
              · rw [if_neg hexp] at h
                injection h with h1 h2
                injection h2 with h2 h3
                rw [← h2]
                exact hb3
          · rw [hvr] at h
            dsimp only at h
            injection h with h1 h2
            injection h2 with h2 h3
            rw [← h2]
            exact hb3

theorem updateAccessToken_state (cfg : Cfg) (st : St) (f : Faults)
    (rnd : List Str) (now : Int) (r a : Str) (res : Except Err UpdRes)
    (stA : St) (fA : Faults) (rndA : List Str)
    (h : updateAccessToken cfg st f rnd now r a = some (res, stA, fA, rndA)) :
    stA = st := by
  unfold updateAccessToken at h
  rcases hq : parseJWS cfg now r with ⟨o, e⟩
  rw [hq] at h
  cases e with
  | some ve =>
    cases o <;>
      · dsimp only at h
        injection h with h1
        injection h1 with h1 h2
        injection h2 with h2 h3
        exact h2.symm
  | none =>
    cases o with
    | none =>
      dsimp only at h
      injection h with h1
      injection h1 with h1 h2
      injection h2 with h2 h3
      exact h2.symm
    | some jr =>
      dsimp only at h
      by_cases hchk : checkRefreshToken st (jr.payload.asRefresh).std.id
      · rw [if_pos hchk] at h
        rcases hda : decodeTok a with _ | ja
        · rw [hda] at h
          exact Option.noConfusion h
        · rw [hda] at h
          dsimp only at h
          rcases hg : genRand rnd with ⟨gres, rndg⟩
          rw [hg] at h
          cases gres <;>
            · dsimp only at h
              injection h with h1
              injection h1 with h1 h2
              injection h2 with h2 h3
              exact h2.symm
      · rw [if_neg hchk] at h
        injection h with h1
        injection h1 with h1 h2
        injection h2 with h2 h3
        exact h2.symm

theorem updExp_backed (cfg : Cfg) (st : St) (f : Faults) (rnd : List Str)
    (now : Int) (r : Str) (res : Except Err Str) (st1 : St) (f1 : Faults)
    (rnd1 : List Str)
    (h : updateRefreshTokenExp cfg st f rnd now r = (res, st1, f1, rnd1))
    (hb : CacheBacked st) : CacheBacked st1 := by
  unfold updateRefreshTokenExp at h
  rcases hq : parseJWS cfg now r with ⟨o, e⟩
  rw [hq] at h
  cases e with
  | some ve =>
    cases o <;>
      · dsimp only at h
        injection h with h1 h2
        injection h2 with h2 h3
        rw [← h2]
        exact hb
  | none =>
    cases o with
    | none =>
      dsimp only at h
      injection h with h1 h2
      injection h2 with h2 h3
      rw [← h2]
      exact hb
    | some jr =>
      dsimp only at h
      rcases hd : deleteRefreshTokenSvc cfg st f now r with ⟨dres, stD, fD⟩
      rw [hd] at h
      have hbD := deleteSvc_backed cfg st f now r dres stD fD hd hb
      cases dres with
      | some e1 =>
        dsimp only at h
        injection h with h1 h2
        injection h2 with h2 h3
        rw [← h2]
        exact hbD
      | none =>
        dsimp only at h
        rcases hs : storeRefreshTokenSvc stD fD rnd
            (jr.payload.asRefresh).std.subject with ⟨sres, stS, fS, rndS⟩
        rw [hs] at h
        have hbS := storeSvc_backed stD fD rnd _ sres stS fS rndS hs hbD
        cases sres <;>
          · dsimp only at h
            injection h with h1 h2
            injection h2 with h2 h3
            rw [← h2]
            exact hbS

theorem renew_backed (cfg : Cfg) (st : St) (f : Faults) (rnd : List Str)
    (now : Int) (a r csrf : Str) (res : RenewRes) (st1 : St) (f1 : Faults)
    (rnd1 : List Str)
    (h : RenewToken cfg st f rnd now a r csrf = some (res, st1, f1, rnd1))
    (hb : CacheBacked st) : CacheBacked st1 := by
  unfold RenewToken at h
  dsimp only at h
  by_cases hc : csrf = []
  · rw [if_pos hc] at h
    injection h with h1
    injection h1 with h1 h2
    injection h2 with h2 h3
    rw [← h2]
    exact hb
  · rw [if_neg hc] at h
    rcases hp : parseJWS cfg now (stripScheme a) with ⟨o, e⟩
    rw [hp] at h
    cases o with
    | none =>
      cases e <;>
        · dsimp only at h
          exact Option.noConfusion h
    | some j =>
      dsimp only at h
      by_cases hcs : csrf ≠ (j.payload.asAccess).csrf
      · rw [if_pos hcs] at h
        injection h with h1
        injection h1 with h1 h2
        injection h2 with h2 h3
        rw [← h2]
        exact hb
      · rw [if_neg hcs] at h
        cases e with
        | none =>
          dsimp only at h
          rcases hu : updateRefreshTokenExp cfg st f rnd now r with
            ⟨ures, stU, fU, rndU⟩
          rw [hu] at h
          have hbU := updExp_backed cfg st f rnd now r ures stU fU rndU hu hb
          cases ures <;>
            · dsimp only at h
              injection h with h1
              injection h1 with h1 h2
              injection h2 with h2 h3
              rw [← h2]
              exact hbU
        | some ve =>
          dsimp only at h
          by_cases hve : ve.expired
          · rw [if_pos hve] at h
            rcases hua : updateAccessToken cfg st f rnd now r (stripScheme a)
              with _ | ⟨ures, stA, fA, rndA⟩
            · rw [hua] at h
              exact Option.noConfusion h
            · rw [hua] at h
              have hstA := updateAccessToken_state cfg st f rnd now r
                (stripScheme a) ures stA fA rndA hua
              cases ures with
              | error e1 =>
                dsimp only at h
                injection h with h1
                injection h1 with h1 h2
                injection h2 with h2 h3
                rw [← h2, hstA]
                exact hb
              | ok u =>
                dsimp only at h
                rcases hu : updateRefreshTokenExp cfg stA fA rndA now r with
                  ⟨ures2, stU, fU, rndU⟩
                rw [hu] at h
                have hbU := updExp_backed cfg stA fA rndA now r ures2 stU fU
                  rndU hu (by rw [hstA]; exact hb)
                cases ures2 with
                | error e1 =>
                  dsimp only at h
                  injection h with h1
                  injection h1 with h1 h2
                  injection h2 with h2 h3
                  rw [← h2]
                  exact hbU
                | ok nr1 =>
                  dsimp only at h
                  rcases hc2 : updateRefreshTokenCsrf cfg now nr1
                    u.csrfSecret with e1 | nr2 <;>
                    · rw [hc2] at h
                      dsimp only at h
                      injection h with h1
                      injection h1 with h1 h2
                      injection h2 with h2 h3
                      rw [← h2]
                      exact hbU
          · rw [if_neg hve] at h
            injection h with h1
            injection h1 with h1 h2
            injection h2 with h2 h3
            rw [← h2]
            exact hb

theorem generate_backed (cfg : Cfg) (st : St) (f : Faults) (rnd : List Str)
    (now : Int) (uid role sub tenant : Str) (res : GenRes) (st1 : St)
    (f1 : Faults) (rnd1 : List Str)
    (h : GenerateToken cfg st f rnd now uid role sub tenant =
      (res, st1, f1, rnd1))
    (hb : CacheBacked st) : CacheBacked st1 := by
  unfold GenerateToken at h
  rcases hg : genRand rnd with ⟨gres, rnd2⟩
  rw [hg] at h
  cases gres with
  | error e =>
    dsimp only at h
    injection h with h1 h2
    injection h2 with h2 h3
    rw [← h2]
    exact hb
  | ok csrf =>
    dsimp only at h
    rcases hcr : createRefreshToken cfg st f rnd2 now sub csrf with
      ⟨rres, stR, fR, rndR⟩
    rw [hcr] at h
    have hbR : CacheBacked stR := by
      unfold createRefreshToken at hcr
      rcases hs : storeRefreshTokenSvc st f rnd2 sub with ⟨sres, stS, fS, rndS⟩
      rw [hs] at hcr
      have hbS := storeSvc_backed st f rnd2 sub sres stS fS rndS hs hb
      cases sres <;>
        · dsimp only at hcr
          injection hcr with h1 h2
          injection h2 with h2 h3
          rw [← h2]
          exact hbS
    dsimp only at h
    injection h with h1 h2
    injection h2 with h2 h3
    rw [← h2]
    exact hbR

/-- C9: every mutation of revocation state writes the durable store
first and mutates the in-memory cache only on the success path of the
repository call — in refresh-record creation, refresh-record deletion
and blocked-token insertion — so none of the public mutating operations
(`GenerateToken`, `DeleteToken`, `RenewToken`) ever leaves the cache
holding an entry with no backing store record, whatever the outcome of
each repository call. -/
theorem store_then_cache_invariant (cfg : Cfg) (st : St) (fG : Faults)
    (rndG : List Str) (nowG : Int) (uid role sub tenant : Str) (fD : Faults)
    (nowD : Int) (a r : Str) (fR : Faults) (rndR : List Str) (nowR : Int)
    (a2 r2 csrf : Str) (res : RenewRes) (st1 : St) (f1 : Faults)
    (rnd1 : List Str) (hb : CacheBacked st) :
    CacheBacked (GenerateToken cfg st fG rndG nowG uid role sub tenant).2.1 ∧
    CacheBacked (DeleteToken cfg st fD nowD a r).2.1 ∧
    (RenewToken cfg st fR rndR nowR a2 r2 csrf = some (res, st1, f1, rnd1) →
      CacheBacked st1) := by
  refine ⟨?_, ?_, ?_⟩
  · rcases hG : GenerateToken cfg st fG rndG nowG uid role sub tenant with
      ⟨res0, st0, f0, rnd0⟩
    exact generate_backed cfg st fG rndG nowG uid role sub tenant res0 st0
      f0 rnd0 hG hb
  · rcases hD : DeleteToken cfg st fD nowD a r with ⟨res0, st0, f0⟩
    exact deleteToken_backed cfg st fD nowD a r res0 st0 f0 hD hb
  · intro hR
    exact renew_backed cfg st fR rndR nowR a2 r2 csrf res st1 f1 rnd1 hR hb

/-- C9 witness: the invariant theorem applied at a concrete state with
one live refresh record, with injected store faults. -/
theorem store_then_cache_invariant_witness :
    CacheBacked (GenerateToken cfgHS stJ [false] [['c'], ['K']] 0 ['u'] ['r']
      ['S'] ['t']).2.1 ∧
    CacheBacked (DeleteToken cfgHS stJ [true, false] 10 atokOK rtokOK).2.1 ∧
    (RenewToken cfgHS stJ [] [['c', '2'], ['J', '2']] 10 atokExp rtokOK ['C'] =
        some (res1C8, stJ2, [], []) →
      CacheBacked stJ2) :=
  store_then_cache_invariant cfgHS stJ [false] [['c'], ['K']] 0 ['u'] ['r']
    ['S'] ['t'] [true, false] 10 atokOK rtokOK [] [['c', '2'], ['J', '2']] 10
    atokExp rtokOK ['C'] res1C8 stJ2 [] []
    (by unfold CacheBacked RefreshBacked BlockedBacked; decide)

theorem generate_err_state (cfg : Cfg) (st : St) (f : Faults)
    (rnd : List Str) (now : Int) (uid role sub tenant : Str) (e : Err)
    (res : GenRes) (st1 : St) (f1 : Faults) (rnd1 : List Str)
    (h : GenerateToken cfg st f rnd now uid role sub tenant =
      (res, st1, f1, rnd1))
    (he : res.err = some e) : st1 = st := by
  unfold GenerateToken at h
  rcases hg : genRand rnd with ⟨gres, rnd2⟩
  rw [hg] at h
  cases gres with
  | error e2 =>
    dsimp only at h
    injection h with h1 h2
    injection h2 with h2 h3
    exact h2.symm
  | ok csrf =>
    dsimp only at h
    rcases hcr : createRefreshToken cfg st f rnd2 now sub csrf with
      ⟨rres, stR, fR, rndR⟩
    rw [hcr] at h
    dsimp only at h
    injection h with h1 h2
    rw [← h1] at he
    exact Option.noConfusion he

theorem storeSvc_blocked (st : St) (f : Faults) (rnd : List Str) (sub : Str)
    (res : Except Err Str) (st1 : St) (f1 : Faults) (rnd1 : List Str)
    (h : storeRefreshTokenSvc st f rnd sub = (res, st1, f1, rnd1)) :
    st1.blockedTokens = st.blockedTokens ∧
    st1.storeBlocked = st.storeBlocked := by
  unfold storeRefreshTokenSvc at h
  rcases hp : pickJti st.refreshTokens rnd with ⟨pres, rnd2⟩
  rw [hp] at h
  cases pres with
  | error e =>
    dsimp only at h
    injection h with h1 h2
    injection h2 with h2 h3
    rw [← h2]
    exact ⟨rfl, rfl⟩
  | ok j2 =>
    dsimp only at h
    rcases hr : repoStoreRefreshToken st f sub j2 with ⟨or, st2, f2⟩
    rw [hr] at h
    cases or with
    | some e =>
      dsimp only at h
      injection h with h1 h2
      injection h2 with h2 h3
      have he := repoStoreRefresh_err st f sub j2 e st2 f2 hr
      rw [← h2, he]
      exact ⟨rfl, rfl⟩
    | none =>
      dsimp only at h
      injection h with h1 h2
      injection h2 with h2 h3
      have hst2 := repoStore_ok st f sub j2 st2 f2 hr
      subst hst2
      rw [← h2]
      exact ⟨rfl, rfl⟩

theorem deleteSvc_blocked (cfg : Cfg) (st : St) (f : Faults) (now : Int)
    (r : Str) (res : Option Err) (st1 : St) (f1 : Faults)
    (h : deleteRefreshTokenSvc cfg st f now r = (res, st1, f1)) :
    st1.blockedTokens = st.blockedTokens ∧
    st1.storeBlocked = st.storeBlocked := by
  unfold deleteRefreshTokenSvc at h
  rcases hv : verifyRefreshToken cfg now r with e1 | rc
  · rw [hv] at h
    dsimp only at h
    injection h with h1 h2
    injection h2 with h2 h3
    rw [← h2]
    exact ⟨rfl, rfl⟩
  · rw [hv] at h
    dsimp only at h
    rcases hfind : repoFindRefreshToken st f rc.std.id with ⟨fres, stf, ff⟩
    rw [hfind] at h
    have hstf : stf = st := by
      have h0 := repoFind_state st f rc.std.id
      rw [hfind] at h0
      exact h0
    cases fres with
    | error e2 =>
      dsimp only at h
      injection h with h1 h2
      injection h2 with h2 h3
      rw [← h2, hstf]
      exact ⟨rfl, rfl⟩
    | ok sub =>
      dsimp only at h
      by_cases hsub : sub ≠ rc.std.subject
      · rw [if_pos hsub] at h
        injection h with h1 h2
        injection h2 with h2 h3
        rw [← h2, hstf]
        exact ⟨rfl, rfl⟩
      · rw [if_neg hsub] at h
        rcases hdel : repoDeleteRefreshToken stf ff rc.std.id with
          ⟨od, st2, f2⟩
        rw [hdel] at h
        cases od with
        | some e2 =>
          dsimp only at h
          injection h with h1 h2
          injection h2 with h2 h3
          have he := repoDelete_err stf ff rc.std.id e2 st2 f2 hdel
          rw [← h2, he, hstf]
          exact ⟨rfl, rfl⟩
        | none =>
          dsimp only at h
          injection h with h1 h2
          injection h2 with h2 h3
          have hst2 := repoDelete_ok stf ff rc.std.id st2 f2 hdel
          subst hst2
          rw [← h2, hstf]
          exact ⟨rfl, rfl⟩

theorem updExp_blocked (cfg : Cfg) (st : St) (f : Faults) (rnd : List Str)
    (now : Int) (r : Str) (res : Except Err Str) (st1 : St) (f1 : Faults)
    (rnd1 : List Str)
    (h : updateRefreshTokenExp cfg st f rnd now r = (res, st1, f1, rnd1)) :
    st1.blockedTokens = st.blockedTokens ∧
    st1.storeBlocked = st.storeBlocked := by
  unfold updateRefreshTokenExp at h
  rcases hq : parseJWS cfg now r with ⟨o, e⟩
  rw [hq] at h
  cases e with
  | some ve =>
    cases o <;>
      · dsimp only at h
        injection h with h1 h2
        injection h2 with h2 h3
        rw [← h2]
        exact ⟨rfl, rfl⟩
  | none =>
    cases o with
    | none =>
      dsimp only at h
      injection h with h1 h2
      injection h2 with h2 h3
      rw [← h2]
      exact ⟨rfl, rfl⟩
    | some jr =>
      dsimp only at h
      rcases hd : deleteRefreshTokenSvc cfg st f now r with ⟨dres, stD, fD⟩
      rw [hd] at h
      have hbD := deleteSvc_blocked cfg st f now r dres stD fD hd
      cases dres with
      | some e1 =>
        dsimp only at h
        injection h with h1 h2
        injection h2 with h2 h3
        rw [← h2]
        exact hbD
      | none =>
        dsimp only at h
        rcases hs : storeRefreshTokenSvc stD fD rnd
            (jr.payload.asRefresh).std.subject with ⟨sres, stS, fS, rndS⟩
        rw [hs] at h
        have hbS := storeSvc_blocked stD fD rnd _ sres stS fS rndS hs
        cases sres <;>
          · dsimp only at h
            injection h with h1 h2
            injection h2 with h2 h3
            rw [← h2]
            exact ⟨hbS.1.trans hbD.1, hbS.2.trans hbD.2⟩

theorem renew_blocked (cfg : Cfg) (st : St) (f : Faults) (rnd : List Str)
    (now : Int) (a r csrf : Str) (res : RenewRes) (st1 : St) (f1 : Faults)
    (rnd1 : List Str)
    (h : RenewToken cfg st f rnd now a r csrf = some (res, st1, f1, rnd1)) :
    st1.blockedTokens = st.blockedTokens ∧
    st1.storeBlocked = st.storeBlocked := by
  unfold RenewToken at h
  dsimp only at h
  by_cases hc : csrf = []
  · rw [if_pos hc] at h
    injection h with h1
    injection h1 with h1 h2
    injection h2 with h2 h3
    rw [← h2]
    exact ⟨rfl, rfl⟩
  · rw [if_neg hc] at h
    rcases hp : parseJWS cfg now (stripScheme a) with ⟨o, e⟩
    rw [hp] at h
    cases o with
    | none =>
      cases e <;>
        · dsimp only at h
          exact Option.noConfusion h
    | some j =>
      dsimp only at h
      by_cases hcs : csrf ≠ (j.payload.asAccess).csrf
      · rw [if_pos hcs] at h
        injection h with h1
        injection h1 with h1 h2
        injection h2 with h2 h3
        rw [← h2]
        exact ⟨rfl, rfl⟩
      · rw [if_neg hcs] at h
        cases e with
        | none =>
          dsimp only at h
          rcases hu : updateRefreshTokenExp cfg st f rnd now r with
            ⟨ures, stU, fU, rndU⟩
          rw [hu] at h
          have hbU := updExp_blocked cfg st f rnd now r ures stU fU rndU hu
          cases ures <;>
            · dsimp only at h
              injection h with h1
              injection h1 with h1 h2
              injection h2 with h2 h3
              rw [← h2]
              exact hbU
        | some ve =>
          dsimp only at h
          by_cases hve : ve.expired
          · rw [if_pos hve] at h
            rcases hua : updateAccessToken cfg st f rnd now r (stripScheme a)
              with _ | ⟨ures, stA, fA, rndA⟩
            · rw [hua] at h
              exact Option.noConfusion h
            · rw [hua] at h
              have hstA := updateAccessToken_state cfg st f rnd now r
                (stripScheme a) ures stA fA rndA hua
              cases ures with
              | error e1 =>
                dsimp only at h
                injection h with h1
                injection h1 with h1 h2
                injection h2 with h2 h3
                rw [← h2, hstA]
                exact ⟨rfl, rfl⟩
              | ok u =>
                dsimp only at h
                rcases hu : updateRefreshTokenExp cfg stA fA rndA now r with
                  ⟨ures2, stU, fU, rndU⟩
                rw [hu] at h
                have hbU := updExp_blocked cfg stA fA rndA now r ures2 stU fU
                  rndU hu
                rw [hstA] at hbU
                cases ures2 with
                | error e1 =>
                  dsimp only at h
                  injection h with h1
                  injection h1 with h1 h2
                  injection h2 with h2 h3
                  rw [← h2]
                  exact hbU
                | ok nr1 =>
                  dsimp only at h
                  rcases hc2 : updateRefreshTokenCsrf cfg now nr1
                    u.csrfSecret with e1 | nr2 <;>
                    · rw [hc2] at h
                      dsimp only at h
                      injection h with h1
                      injection h1 with h1 h2
                      injection h2 with h2 h3
                      rw [← h2]
                      exact hbU
          · rw [if_neg hve] at h
            injection h with h1
            injection h1 with h1 h2
            injection h2 with h2 h3
            rw [← h2]
            exact ⟨rfl, rfl⟩

/-- C4 (amended): a failing `GenerateToken` leaves the state completely
untouched, and neither a failing `DeleteToken` nor a failing
`RenewToken` ever leaves a partial blocked-token mutation (the blocked
collections in store and cache are exactly as before); but both
`DeleteToken` and `RenewToken` do first complete a store-and-cache
mutation — the deletion of the refresh record from both store and
cache — and then return an error: `DeleteToken` when the presented
access token fails verification (here: already expired), and
`RenewToken` when, during rotation, the store write of the fresh JTI
fails after the old record was already deleted from store and cache
(jwt.go lines 1060-1070). -/
theorem mutation_then_error_partial_state (cfg : Cfg) (st : St)
    (fG : Faults) (rndG : List Str) (nowG : Int) (uid role sub tenant : Str)
    (resG : GenRes) (stG : St) (fG1 : Faults) (rndG1 : List Str) (eG : Err)
    (fD : Faults) (nowD : Int) (a r : Str) (eD : Err) (stD : St)
    (fD1 : Faults) (fR : Faults) (rndR : List Str) (nowR : Int)
    (a2 r2 csrf : Str) (resR : RenewRes) (stR : St) (fR1 : Faults)
    (rndR1 : List Str) (eR : Err)
    (hG : GenerateToken cfg st fG rndG nowG uid role sub tenant =
      (resG, stG, fG1, rndG1))
    (hGe : resG.err = some eG)
    (hD : DeleteToken cfg st fD nowD a r = (some eD, stD, fD1))
    (hR : RenewToken cfg st fR rndR nowR a2 r2 csrf =
      some (resR, stR, fR1, rndR1))
    (hRe : resR.err = some eR) :
    stG = st ∧
    (stD.blockedTokens = st.blockedTokens ∧
      stD.storeBlocked = st.storeBlocked) ∧
    (stR.blockedTokens = st.blockedTokens ∧
      stR.storeBlocked = st.storeBlocked) ∧
    DeleteToken cfgHS stJ [] 10 atokExp rtokOK =
      (some .expiredToken, stEmpty, []) ∧
    RenewToken cfgHS stJ [true, true, false] [['K']] 10 atokOK rtokOK ['C'] =
      some (⟨atokOK, [], ['C'], 0, [], some .storeError⟩, stEmpty, [], []) := by
  refine ⟨generate_err_state cfg st fG rndG nowG uid role sub tenant eG resG
      stG fG1 rndG1 hG hGe,
    deleteToken_err_blocked cfg st fD nowD a r eD stD fD1 hD,
    renew_blocked cfg st fR rndR nowR a2 r2 csrf resR stR fR1 rndR1 hR,
    by decide, by decide⟩

/-- C4 witness: the amended theorem applied at concrete erroring runs of
all three operations on the one-record state `stJ`. -/
theorem mutation_then_error_partial_state_witness :
    stJ = stJ ∧
    (stEmpty.blockedTokens = stJ.blockedTokens ∧
      stEmpty.storeBlocked = stJ.storeBlocked) ∧
    (stEmpty.blockedTokens = stJ.blockedTokens ∧
      stEmpty.storeBlocked = stJ.storeBlocked) ∧
    DeleteToken cfgHS stJ [] 10 atokExp rtokOK =
      (some .expiredToken, stEmpty, []) ∧
    RenewToken cfgHS stJ [true, true, false] [['K']] 10 atokOK rtokOK ['C'] =
      some (⟨atokOK, [], ['C'], 0, [], some .storeError⟩, stEmpty, [], []) :=
  mutation_then_error_partial_state cfgHS stJ [] [] 0 ['u'] ['r'] ['S'] ['t']
    ⟨[], [], [], 0, some .randError⟩ stJ [] [] .randError [] 10 atokExp
    rtokOK .expiredToken stEmpty [] [true, true, false] [['K']] 10 atokOK
    rtokOK ['C'] ⟨atokOK, [], ['C'], 0, [], some .storeError⟩ stEmpty [] []
    .storeError (by decide) (by decide) (by decide) (by decide) (by decide)

end Wotop
